import Mathlib

/-!
Verification of `datecycle`, `ls_class` and `secdel`.

A shallow embedding of `remove_old_files`, `max_time_length`, the command line
of `main` and the user and group handling of `datecycle` from
`src/attic/datecycle.c`, of `ls_create`, `ls_reorder` and the comparators of
`src/ls_class.c` with the `ls_t` snapshot of `src/ls_class.h`, and of the
overwriting passes of `src/secdel.c`.

Integer model (LP64): `limit_t` is `unsigned long`, 64 bits wide; `time_t` is a
signed 64 bit integer; `int` is 32 bits wide.  Unsigned arithmetic is taken
modulo `2 ^ 64`, and the conversion of an `unsigned long` to `int` keeps the
low 32 bits in two's complement.
-/

namespace Datecycle

/-! ## Machine integers -/

/-- Number of values of `unsigned long` (`limit_t`). -/
def ULONG_MOD : Nat := 2 ^ 64

/-- Conversion of a signed integer to `unsigned long`. -/
def toULong (v : Int) : Nat := (v % (ULONG_MOD : Int)).toNat

/-- Conversion of an `unsigned long` to `int` (low 32 bits, two's complement). -/
def toInt32 (v : Nat) : Int :=
  if v % 2 ^ 32 < 2 ^ 31 then ((v % 2 ^ 32 : Nat) : Int) else ((v % 2 ^ 32 : Nat) : Int) - 2 ^ 32

/-! ## The snapshot (`ls_t`) -/

/-- One entry of a directory listing: the name and the fields of `struct stat`
that `remove_old_files` reads.  `st_mtime` is a `time_t`; `st_blocks` is the
count of 512 byte blocks reported by `stat`. -/
structure lsent_t where
  filename : String
  st_mtime : Int
  st_blocks : Nat
  deriving DecidableEq, Repr

/-- Number of entries, `LS_COUNT(l)`. -/
def LS_COUNT (l : List lsent_t) : Nat := l.length

/-- Modification time of entry `i` as compared with an `unsigned long`. -/
def LS_MTIME (l : List lsent_t) (i : Nat) : Int :=
  match l[i]? with
  | some e => e.st_mtime
  | none => 0

/-- Block count of entry `i`, `LS_BLOCKS(l,i)`. -/
def LS_BLOCKS (l : List lsent_t) (i : Nat) : Nat :=
  match l[i]? with
  | some e => e.st_blocks
  | none => 0

deriving instance DecidableEq for Except

/-! ## Exit codes -/

def ERROR_NONE : Nat := 0
def ERROR_BADFMT : Nat := 5

/-! ## `remove_old_files`: conversion of the limit -/

/-- The three kinds of limit after the first `switch(units)`. -/
inductive Unit3 where
  | f
  | k
  | s
  deriving DecidableEq, Repr

/-- The first `switch(units)` of `remove_old_files`: the limit converted to
files, kilobytes or seconds, in `unsigned long` arithmetic. -/
def convert_limit (limit : Nat) (units : Char) : Except Nat (Unit3 × Nat) :=
  if units = Char.ofNat 0 ∨ units = ' ' ∨ units = 'f' then .ok (Unit3.f, limit)
  else if units = 'h' then .ok (Unit3.s, limit * 3600 % ULONG_MOD)
  else if units = 'd' then .ok (Unit3.s, limit * (3600 * 24) % ULONG_MOD)
  else if units = 'w' then .ok (Unit3.s, limit * (3600 * 24 * 7) % ULONG_MOD)
  else if units = 'm' then .ok (Unit3.s, limit * (3600 * 24 * 31) % ULONG_MOD)
  else if units = 'y' then .ok (Unit3.s, limit * (3600 * 24 * 365) % ULONG_MOD)
  else if units = 'K' then .ok (Unit3.k, limit)
  else if units = 'M' then .ok (Unit3.k, limit * 2 ^ 10 % ULONG_MOD)
  else if units = 'G' then .ok (Unit3.k, limit * 2 ^ 20 % ULONG_MOD)
  else .error ERROR_BADFMT

/-! ## `remove_old_files`: the three removal loops

Each function returns the indices `i` at which the body of the loop runs, in
the order in which it runs: the entry `LS_FILENAME(list,i)` is printed when
`DC_VERBOSE` is set and handed to `deletefromdir` unless `DC_FAKE` is set. -/

/-- Case `'f'`: `n=LS_COUNT(list)-limit; for(i=0;i<n;++i)`.  The difference is
computed in `unsigned long` and stored in the `int` `n`. -/
def remove_by_count (list : List lsent_t) (limit : Nat) : List Nat :=
  let n : Int := toInt32 ((LS_COUNT list + (ULONG_MOD - limit % ULONG_MOD)) % ULONG_MOD)
  List.range n.toNat

/-- First loop of case `'k'`:
`for(i=LS_COUNT(list)-1;i>=0 && (x+=(LS_BLOCKS(list,i)/2))<=limit;--i);`
The argument `j` is `i+1`; the result is `i+1` when the loop stops. -/
def size_scan (list : List lsent_t) (limit : Nat) : Nat → Nat → Nat
  | 0, _ => 0
  | j + 1, x =>
    let x1 := (x + LS_BLOCKS list j / 2) % ULONG_MOD
    if x1 ≤ limit then size_scan list limit j x1 else j + 1

/-- Case `'k'`: the second loop `for(;i>=0;--i)` runs at `i, i-1, ..., 0`. -/
def remove_by_size (list : List lsent_t) (limit : Nat) : List Nat :=
  (List.range (size_scan list limit (LS_COUNT list) 0)).reverse

/-- Case `'s'`: `time((time_t*)&x); x-=limit;` then every `i` with
`LS_MTIME(list,i)<x`, the comparison being one of `unsigned long` values. -/
def remove_by_age (list : List lsent_t) (limit : Nat) (now : Int) : List Nat :=
  let x : Nat := (toULong now + (ULONG_MOD - limit % ULONG_MOD)) % ULONG_MOD
  (List.range (LS_COUNT list)).filter (fun i => decide (toULong (LS_MTIME list i) < x))

/-- The selection part of `remove_old_files`: `list` is the snapshot returned
by `ls_create` (sorted by `ls_sort_date`), `now` the value stored by `time`.
The result is the list of indices removed, or the exit code. -/
def remove_old_files (list : List lsent_t) (limit : Nat) (units : Char) (now : Int) :
    Except Nat (List Nat) :=
  match convert_limit limit units with
  | .error rc => .error rc
  | .ok (Unit3.f, lim) => .ok (remove_by_count list lim)
  | .ok (Unit3.k, lim) => .ok (remove_by_size list lim)
  | .ok (Unit3.s, lim) => .ok (remove_by_age list lim now)

/-- The entries of the snapshot at the given indices; an index that is not in
`[0, LS_COUNT)` names no entry. -/
def entries_at (list : List lsent_t) (idx : List Nat) : List lsent_t :=
  idx.filterMap (fun i => list[i]?)

/-- Size in kilobytes charged for an entry by the size branch: `st_blocks/2`. -/
def size_kb (e : lsent_t) : Nat := e.st_blocks / 2

/-- Cumulative size of the entries from index `j` to the newest one. -/
def suffix_kb (list : List lsent_t) (j : Nat) : Nat := ((list.drop j).map size_kb).sum

/-- Cumulative size of the `k` newest entries of a snapshot sorted oldest first. -/
def newest_total (list : List lsent_t) (k : Nat) : Nat := suffix_kb list (list.length - k)

/-- The limit as `main` passes it: `opt_limit_val=atoi(opt_limit)`, an `int`
converted to `limit_t`. -/
def main_limit (atoi_result : Int) : Nat := toULong atoi_result


/-! ## `max_time_length` -/

def MTL_FILENAME : Nat := 1
def MTL_SUFFIX : Nat := 0
def MTL_REGEXP : Nat := 2

/-- The default suffix format, `DEFAULT_FORMAT`. -/
def DEFAULT_FORMAT : List Char := ".%Y%m%d%H%M".toList

/-- The fields of `struct tm`. -/
structure tm where
  tm_sec : Int
  tm_min : Int
  tm_hour : Int
  tm_mday : Int
  tm_mon : Int
  tm_year : Int
  tm_wday : Int
  tm_yday : Int
  tm_isdst : Int
  deriving DecidableEq, Repr

/-- The variables of `max_time_length` that change while the format is read:
the broken-down time `tm`, the running total `n`, and the contents of the
buffer `sRE` as a C string (`none` when `sRE` is `NULL`). -/
structure MtlState where
  t : tm
  n : Int
  sRE : Option (List Char)
  deriving DecidableEq, Repr

/-- The statement `if (sRE) if (n+m<nRE) strcpy(sRE+n,field); else return -1;`
with `m=strlen(field)`.  The result `none` stands for `return -1`. -/
def put_field (field : List Char) (n : Int) (sRE : Option (List Char)) (nRE : Int) :
    Option (Option (List Char)) :=
  match sRE with
  | none => some none
  | some buf =>
    if n + (field.length : Int) < nRE then some (some (buf.take n.toNat ++ field)) else none

/-- A directive whose regexp fragment is `field`, added to `n` together with
the copy into `sRE`, and whose width in suffix mode is `width`. -/
def fixed_case (mode : Nat) (nRE : Int) (field : String) (width : Int) (st : MtlState) :
    Option MtlState :=
  if mode &&& MTL_REGEXP ≠ 0 then
    match put_field field.toList st.n st.sRE nRE with
    | none => none
    | some buf => some { st with n := st.n + (field.toList.length : Int), sRE := buf }
  else some { st with n := st.n + width }

/-- A directive whose regexp fragment is `field` and whose width in suffix mode
is the length of one expansion by `strftime` of the current `tm`. -/
def probed_case (strftime : Char → tm → Nat) (mode : Nat) (nRE : Int) (field : String)
    (c : Char) (st : MtlState) : Option MtlState :=
  if mode &&& MTL_REGEXP ≠ 0 then
    match put_field field.toList st.n st.sRE nRE with
    | none => none
    | some buf => some { st with n := st.n + (field.toList.length : Int), sRE := buf }
  else some { st with n := st.n + (strftime c st.t : Int) }

/-- The loop `for(m=i=0;i<7;++i) {tm.tm_wday=i; l=strftime(...); if (l>m) m=l;}`. -/
def max_over_wday (strftime : Char → tm → Nat) (c : Char) (t : tm) : Nat :=
  (List.range 7).foldl
    (fun m i => let l := strftime c { t with tm_wday := (i : Int) }; if l > m then l else m) 0

/-- The loop `for(m=i=0;i<12;++i) {tm.tm_mon=i; l=strftime(...); if (l>m) m=l;}`. -/
def max_over_mon (strftime : Char → tm → Nat) (c : Char) (t : tm) : Nat :=
  (List.range 12).foldl
    (fun m i => let l := strftime c { t with tm_mon := (i : Int) }; if l > m then l else m) 0

/-- The nested loops of case `'c'` over `tm_mon` and `tm_wday`. -/
def max_over_mon_wday (strftime : Char → tm → Nat) (c : Char) (t : tm) : Nat :=
  (List.range 12).foldl
    (fun m i => (List.range 7).foldl
      (fun m j =>
        let l := strftime c { t with tm_mon := (i : Int), tm_wday := (j : Int) }
        if l > m then l else m) m) 0

/-- The body of `switch(f[1]=*++fmt)` for the directive character `c`.  The
argument `strftime c t` is the value returned by
`strftime(s,sizeof(s),f,&tm)` with `f` the directive `%c`.  The result `none`
stands for `return -1`. -/
def mtl_directive (strftime : Char → tm → Nat) (mode : Nat) (nRE : Int) (c : Char)
    (st : MtlState) : Option MtlState :=
  if c = 'a' ∨ c = 'A' then
    if mode &&& MTL_REGEXP ≠ 0 then
      match put_field "[a-z]{2,}".toList st.n st.sRE nRE with
      | none => none
      | some buf => some { st with n := st.n + ("[a-z]{2,}".toList.length : Int), sRE := buf }
    else
      some { st with t := { st.t with tm_wday := 6 },
                     n := st.n + (max_over_wday strftime c st.t : Int) }
  else if c = 'b' ∨ c = 'B' ∨ c = 'h' then
    if mode &&& MTL_REGEXP ≠ 0 then
      match put_field "[a-z]{2,}".toList st.n st.sRE nRE with
      | none => none
      | some buf => some { st with n := st.n + ("[a-z]{2,}".toList.length : Int), sRE := buf }
    else
      some { st with t := { st.t with tm_mon := 11 },
                     n := st.n + (max_over_mon strftime c st.t : Int) }
  else if c = 'c' then
    if mode &&& MTL_REGEXP ≠ 0 then
      match put_field ".*".toList st.n st.sRE nRE with
      | none => none
      | some buf => some { st with n := st.n + (".*".toList.length : Int), sRE := buf }
    else
      some { st with t := { st.t with tm_mon := 11, tm_wday := 6 },
                     n := st.n + (max_over_mon_wday strftime c st.t : Int) }
  else if c = 'r' then
    if mode &&& MTL_REGEXP ≠ 0 then
      match put_field ".*".toList st.n st.sRE nRE with
      | none => none
      | some buf => some { st with n := st.n + (".*".toList.length : Int), sRE := buf }
    else
      let m := strftime c st.t
      let t1 : tm := { st.t with tm_hour := 23 - st.t.tm_hour }
      let l := strftime c t1
      some { st with t := t1, n := st.n + ((if l > m then l else m : Nat) : Int) }
  else if c = 's' then probed_case strftime mode nRE "[0-9]+" c st
  else if c = 'x' ∨ c = 'X' ∨ c = 'z' ∨ c = 'Z' ∨ c = '+' then
    probed_case strftime mode nRE ".*" c st
  else if c = 'n' ∨ c = 't' ∨ c = '%' then
    if mode &&& MTL_FILENAME ≠ 0 then none
    else
      fixed_case mode nRE
        (String.mk [if c = 'n' then '\n' else if c = 't' then '\t' else '%']) 1 st
  else if c = 'u' ∨ c = 'w' then fixed_case mode nRE "[0=9]" 1 st
  else if c = 'p' ∨ c = 'P' then fixed_case mode nRE "[AaPp][Mm]" 2 st
  else if c = 'C' ∨ c = 'd' ∨ c = 'g' ∨ c = 'H' ∨ c = 'I' ∨ c = 'l' ∨ c = 'm' ∨ c = 'M'
      ∨ c = 'S' ∨ c = 'U' ∨ c = 'V' ∨ c = 'W' ∨ c = 'y' then
    fixed_case mode nRE "[0-9]{2}" 2 st
  else if c = 'e' ∨ c = 'k' then fixed_case mode nRE "[0-9 ][0-9]" 2 st
  else if c = 'j' then fixed_case mode nRE "[0-9]{3}" 3 st
  else if c = 'G' ∨ c = 'Y' then fixed_case mode nRE "[0-9]{4}" 4 st
  else if c = 'R' then fixed_case mode nRE "[0-9]{2}:[0-9]{2}" 5 st
  else if c = 'D' then
    if mode &&& MTL_FILENAME ≠ 0 then none
    else fixed_case mode nRE "([0-9]{2}/){2}[0-9]{2}" 8 st
  else if c = 'T' then fixed_case mode nRE "([0-9]{2}:){2}[0-9]{2}" 8 st
  else if c = 'F' then fixed_case mode nRE "[0-9]{4}(-[0-9]{2}){2}" 10 st
  else none

/-- The characters that the literal branch escapes: `"^.[$()|*+?{\\"`. -/
def RE_TOKENS : List Char := "^.[$()|*+?\x7b\\".toList

/-- The `else` branch of the loop body: a character of the format other than `%`. -/
def mtl_literal (mode : Nat) (nRE : Int) (c : Char) (st : MtlState) : Option MtlState :=
  if mode &&& MTL_FILENAME ≠ 0 ∧ (c.toNat < ' '.toNat ∨ c.toNat > '~'.toNat ∨ c ∈ "<>|".toList) then
    none
  else if mode &&& MTL_REGEXP ≠ 0 then
    let field : List Char := if c ∈ RE_TOKENS then ['\\', c] else [c]
    match put_field field st.n st.sRE nRE with
    | none => none
    | some buf => some { st with n := st.n + (field.length : Int), sRE := buf }
  else some { st with n := st.n + 1 }

/-- The loop `for(;*fmt;++fmt)` of `max_time_length`.  A `%` at the end of the
format reads the terminating null as the directive and takes the `default`
case.  The result is the value returned and the contents of `sRE`. -/
def mtl_loop (strftime : Char → tm → Nat) (mode : Nat) (nRE : Int) :
    List Char → MtlState → Int × Option (List Char)
  | [], st => (st.n, st.sRE)
  | c :: rest, st =>
    if c = '%' then
      match rest with
      | [] => (-1, st.sRE)
      | d :: rest1 =>
        match mtl_directive strftime mode nRE d st with
        | none => (-1, st.sRE)
        | some st1 => mtl_loop strftime mode nRE rest1 st1
    else
      match mtl_literal mode nRE c st with
      | none => (-1, st.sRE)
      | some st1 => mtl_loop strftime mode nRE rest st1

/-- The function `max_time_length(fmt,mode,sRE,nRE)`: `strftime` is the C
library function in the current locale, `t0` the broken-down current time set
by `localtime_r`.  The result is the value returned (`-1` for an invalid
format) and the contents of the buffer `sRE`. -/
def max_time_length (strftime : Char → tm → Nat) (t0 : tm) (fmt : List Char) (mode : Nat)
    (sRE : Option (List Char)) (nRE : Int) : Int × Option (List Char) :=
  mtl_loop strftime mode nRE fmt { t := t0, n := 0, sRE := sRE }

/-- The trailing group for compressed files, `sCompressedRE`. -/
def sCompressedRE : List Char := "(.(C|Z|gz|z))?$".toList

/-- The pattern `sAgedSpec` that `remove_old_files` compiles: the length of the
fragment is found with `sRE=NULL`, a buffer one byte longer is filled, and the
result is `"^%s%s%s"` of the base name, the fragment and `sCompressedRE`.  The
result `none` stands for `ERROR_BADFMT`. -/
def aged_spec (strftime : Char → tm → Nat) (t0 : tm) (sPathBase : List Char)
    (fmt : List Char) : Option (List Char) :=
  let fmt1 := if fmt = [] then DEFAULT_FORMAT else fmt
  let n := (max_time_length strftime t0 fmt1 (MTL_FILENAME ||| MTL_REGEXP) none 0).1
  if n < 0 then none
  else
    match max_time_length strftime t0 fmt1 (MTL_FILENAME ||| MTL_REGEXP) (some []) (n + 1) with
    | (n1, some sSuffixRE) =>
      if n1 < 0 then none else some ('^' :: sPathBase ++ sSuffixRE ++ sCompressedRE)
    | (_, none) => none

/-! ## Extended regular expressions

The pattern is compiled with `regcomp(&re,sAgedSpec,REG_EXTENDED)` and applied
by `ls_match_RE`, which is `!regexec(preg,LSENT_FILENAME(ent),0,NULL,0)`.  The
definitions below give the POSIX meaning of the extended regular expressions
that occur here: ordinary and escaped characters, `.`, bracket expressions with
ranges, the anchors, grouping, alternation, and the duplication symbols `*`,
`+`, `?`, `{m}`, `{m,}` and `{m,n}`.  Matching is case sensitive, as no
`REG_ICASE` is passed. -/

/-- Abstract syntax of an extended regular expression. -/
inductive ERE where
  | chr : Char → ERE
  | any : ERE
  | bracket : Bool → List (Char × Char) → ERE
  | bol : ERE
  | eol : ERE
  | eps : ERE
  | seq : ERE → ERE → ERE
  | alt : ERE → ERE → ERE
  | rep : ERE → Nat → Option Nat → ERE
  deriving DecidableEq, Repr

/-- Positions reached from the positions `cur` by `k` further matches of a
subexpression whose end positions are given by `step`, collected from the
moment at least `lo` matches have been made (`done` counts them). -/
def rep_ends (step : Nat → List Nat) (lo : Nat) : Nat → Nat → List Nat → List Nat
  | 0, done, cur => if lo ≤ done then cur else []
  | k + 1, done, cur =>
    (if lo ≤ done then cur else []) ++
      rep_ends step lo k (done + 1) ((cur.flatMap step).eraseDups)

/-- The positions at which a match of the expression that starts at position
`i` of the string `s` can end. -/
def ERE.ends (s : List Char) : ERE → Nat → List Nat
  | .chr c, i => if s[i]? = some c then [i + 1] else []
  | .any, i => if i < s.length then [i + 1] else []
  | .bracket neg items, i =>
    match s[i]? with
    | some c =>
      if (items.any (fun r => decide (r.1.toNat ≤ c.toNat ∧ c.toNat ≤ r.2.toNat))) != neg
      then [i + 1] else []
    | none => []
  | .bol, i => if i = 0 then [i] else []
  | .eol, i => if i = s.length then [i] else []
  | .eps, i => [i]
  | .seq a b, i => ((ERE.ends s a i).flatMap (fun j => ERE.ends s b j)).eraseDups
  | .alt a b, i => (ERE.ends s a i ++ ERE.ends s b i).eraseDups
  | .rep r lo hi, i =>
    (rep_ends (fun j => ERE.ends s r j) lo
      (match hi with
       | some h => h
       | none => lo + s.length + 1) 0 [i]).eraseDups

/-- The function `regexec` without match registers: true when the expression
matches some substring of `s`. -/
def regexec (re : ERE) (s : List Char) : Bool :=
  (List.range (s.length + 1)).any (fun i => !(ERE.ends s re i).isEmpty)

/-- A group under construction: the finished branches and the pieces of the
current branch, both latest first. -/
structure Frame where
  alts : List ERE
  cur : List ERE
  deriving DecidableEq, Repr

/-- The concatenation of the pieces of a branch (given latest first). -/
def branch_of (cur : List ERE) : ERE :=
  match cur with
  | [] => ERE.eps
  | p :: ps => ps.foldl (fun acc q => ERE.seq q acc) p

/-- The alternation of the branches of a finished group. -/
def close_frame (f : Frame) : ERE :=
  f.alts.foldl (fun acc b => ERE.alt b acc) (branch_of f.cur)

/-- The items of a bracket expression up to the closing `]`: single characters
and ranges `a-b`.  The result also holds the rest of the pattern.  The first
argument bounds the number of steps; every step consumes a character. -/
def bracket_items : Nat → List Char → List (Char × Char) →
    Option (List (Char × Char) × List Char)
  | 0, _, _ => none
  | _ + 1, [], _ => none
  | fuel + 1, c :: rest, acc =>
    if c = ']' then some (acc.reverse, rest)
    else
      match rest with
      | '-' :: b :: rest1 =>
        if b = ']' then some (((('-', '-') :: (c, c) :: acc).reverse), rest1)
        else bracket_items fuel rest1 ((c, b) :: acc)
      | _ => bracket_items fuel rest ((c, c) :: acc)

/-- A bracket expression after its opening `[`: an optional `^`, then the
items, of which a leading `]` stands for itself. -/
def parse_bracket (s : List Char) : Option (ERE × List Char) :=
  let (neg, s1) :=
    match s with
    | '^' :: r => (true, r)
    | _ => (false, s)
  match s1 with
  | ']' :: r =>
    match bracket_items (r.length + 1) r [(']', ']')] with
    | some (items, rest) => some (ERE.bracket neg items, rest)
    | none => none
  | _ =>
    match bracket_items (s1.length + 1) s1 [] with
    | some (items, rest) => some (ERE.bracket neg items, rest)
    | none => none

/-- A decimal number at the head of the pattern: its value, whether a digit
was read, and the rest. -/
def take_digits : List Char → Nat → Bool → Nat × Bool × List Char
  | [], v, seen => (v, seen, [])
  | c :: rest, v, seen =>
    if '0'.toNat ≤ c.toNat ∧ c.toNat ≤ '9'.toNat then
      take_digits rest (10 * v + (c.toNat - '0'.toNat)) true
    else (v, seen, c :: rest)

/-- An interval after its opening brace: `m}`, `m,}` or `m,n}`. -/
def parse_brace (s : List Char) : Option (Nat × Option Nat × List Char) :=
  match take_digits s 0 false with
  | (lo, true, '}' :: rest) => some (lo, some lo, rest)
  | (lo, true, ',' :: rest) =>
    match take_digits rest 0 false with
    | (_, false, '}' :: rest1) => some (lo, none, rest1)
    | (hi, true, '}' :: rest1) => if lo ≤ hi then some (lo, some hi, rest1) else none
    | _ => none
  | _ => none

/-- Application of a duplication symbol to the latest piece of the branch. -/
def dup_last (f : Frame) (lo : Nat) (hi : Option Nat) : Option Frame :=
  match f.cur with
  | [] => none
  | p :: ps => some { f with cur := ERE.rep p lo hi :: ps }

/-- The reading of a pattern from left to right, with the enclosing groups on
a stack.  The first argument bounds the number of steps; every step consumes
at least one character.  The result `none` stands for a failure of `regcomp`. -/
def regcomp_loop : Nat → List Char → List Frame → Frame → Option ERE
  | 0, _, _, _ => none
  | _ + 1, [], stack, top => if stack = [] then some (close_frame top) else none
  | fuel + 1, c :: rest, stack, top =>
    if c = '(' then regcomp_loop fuel rest (top :: stack) { alts := [], cur := [] }
    else if c = ')' then
      match stack with
      | [] => none
      | f :: fs => regcomp_loop fuel rest fs { f with cur := close_frame top :: f.cur }
    else if c = '|' then
      regcomp_loop fuel rest stack { alts := branch_of top.cur :: top.alts, cur := [] }
    else if c = '*' then
      match dup_last top 0 none with
      | some f => regcomp_loop fuel rest stack f
      | none => none
    else if c = '+' then
      match dup_last top 1 none with
      | some f => regcomp_loop fuel rest stack f
      | none => none
    else if c = '?' then
      match dup_last top 0 (some 1) with
      | some f => regcomp_loop fuel rest stack f
      | none => none
    else if c = '{' then
      match parse_brace rest with
      | some (lo, hi, rest1) =>
        match dup_last top lo hi with
        | some f => regcomp_loop fuel rest1 stack f
        | none => none
      | none => none
    else if c = '[' then
      match parse_bracket rest with
      | some (b, rest1) => regcomp_loop fuel rest1 stack { top with cur := b :: top.cur }
      | none => none
    else if c = '\\' then
      match rest with
      | d :: rest1 => regcomp_loop fuel rest1 stack { top with cur := ERE.chr d :: top.cur }
      | [] => none
    else if c = '.' then regcomp_loop fuel rest stack { top with cur := ERE.any :: top.cur }
    else if c = '^' then regcomp_loop fuel rest stack { top with cur := ERE.bol :: top.cur }
    else if c = '$' then regcomp_loop fuel rest stack { top with cur := ERE.eol :: top.cur }
    else regcomp_loop fuel rest stack { top with cur := ERE.chr c :: top.cur }

/-- The function `regcomp` with `REG_EXTENDED`; `none` is a non-zero result. -/
def regcomp (pattern : List Char) : Option ERE :=
  regcomp_loop (pattern.length + 1) pattern [] { alts := [], cur := [] }

/-- The selector `ls_match_RE` applied to a file name, for the compiled form of
`pattern`; `none` when the pattern does not compile. -/
def ls_match_RE (pattern : List Char) (filename : List Char) : Option Bool :=
  match regcomp pattern with
  | none => none
  | some re => some (regexec re filename)

/-! ## The table of fixed-width directives -/

/-- The regexp fragment and the width stated for each fixed-width directive:
two digits for `%C %d %g %H %I %m %M %S %U %V %W %y`, three for `%j`, four for
`%G %Y`, the meridian for `%p %P`, and the composite clocks `%R`, `%T`, `%F`. -/
def fixed_fragment (c : Char) : Option (String × Nat) :=
  if c ∈ ['C', 'd', 'g', 'H', 'I', 'm', 'M', 'S', 'U', 'V', 'W', 'y'] then some ("[0-9]{2}", 2)
  else if c = 'j' then some ("[0-9]{3}", 3)
  else if c = 'G' ∨ c = 'Y' then some ("[0-9]{4}", 4)
  else if c = 'p' ∨ c = 'P' then some ("[AaPp][Mm]", 2)
  else if c = 'R' then some ("[0-9]{2}:[0-9]{2}", 5)
  else if c = 'T' then some ("([0-9]{2}:){2}[0-9]{2}", 8)
  else if c = 'F' then some ("[0-9]{4}(-[0-9]{2}){2}", 10)
  else none

/-- The format `%d1%d2...` made of the directives `ds` in order. -/
def format_of (ds : List Char) : List Char := ds.flatMap (fun d => ['%', d])

/-- The concatenation, in order, of the stated fragments of the directives. -/
def fragments_of (ds : List Char) : List Char :=
  ds.flatMap (fun d =>
    match fixed_fragment d with
    | some (f, _) => f.toList
    | none => [])

/-- The sum of the stated widths of the directives. -/
def widths_of (ds : List Char) : Nat :=
  (ds.map (fun d =>
    match fixed_fragment d with
    | some (_, w) => w
    | none => 0)).sum

/-! ## Format validation in `datecycle` and `remove_old_files` -/

/-- The characters that have a case of their own in the `switch` of
`max_time_length`, other than `E` and `O` which share the `default` case. -/
def SUPPORTED : List Char :=
  ['a', 'A', 'b', 'B', 'h', 'c', 'r', 's', 'x', 'X', 'z', 'Z', '+', 'n', 't', '%', 'u', 'w',
    'p', 'P', 'C', 'd', 'g', 'H', 'I', 'l', 'm', 'M', 'S', 'U', 'V', 'W', 'y', 'e', 'k', 'j',
    'G', 'Y', 'R', 'D', 'T', 'F']

/-- Whether the format, read as the loop of `max_time_length` reads it, holds
a directive character for which `bad_directive` is true, a `%` as its last
character, or a literal character for which `bad_literal` is true. -/
def contains_bad (bad_directive bad_literal : Char → Bool) : List Char → Bool
  | [] => false
  | c :: rest =>
    if c = '%' then
      match rest with
      | [] => true
      | d :: rest1 => bad_directive d || contains_bad bad_directive bad_literal rest1
    else bad_literal c || contains_bad bad_directive bad_literal rest

/-- A format with an unsupported directive: `%E`, `%O`, a `%` followed by any
other character outside the supported set, or a `%` as the last character. -/
def has_unsupported_directive (fmt : List Char) : Bool :=
  contains_bad (fun d => !(SUPPORTED.contains d)) (fun _ => false) fmt

/-- A format with a directive or literal character that cannot stand in a file
name: `%n`, `%t`, `%D`, or a literal character below `' '`, above `'~'`, or one
of `<`, `>`, `|`. -/
def has_path_breaker (fmt : List Char) : Bool :=
  contains_bad (fun d => d = 'n' || d = 't' || d = 'D')
    (fun c => decide (c.toNat < ' '.toNat) || decide (c.toNat > '~'.toNat) ||
      "<>|".toList.contains c) fmt

/-- The statements of `datecycle` that validate the format: the value of `rc`
after them.  The argument `expand` is the value returned by
`strftime(sSuffix,nTimeLength+1,fmt,&tm)` for the given buffer size. -/
def datecycle_format_rc (strftime : Char → tm → Nat) (t0 : tm) (fmt : List Char)
    (expand : Int → Int) : Nat :=
  let fmt1 := if fmt = [] then DEFAULT_FORMAT else fmt
  let nTimeLength := (max_time_length strftime t0 fmt1 (MTL_FILENAME ||| MTL_SUFFIX) none 0).1
  if nTimeLength < 0 then ERROR_BADFMT
  else if expand (nTimeLength + 1) < 1 then ERROR_BADFMT
  else ERROR_NONE

/-- The statements of `remove_old_files` that derive `sAgedSpec` from the
format, once the target directory has been found: the value of `rc` after
them. -/
def remove_old_files_format_rc (strftime : Char → tm → Nat) (t0 : tm)
    (sPathBase fmt : List Char) : Nat :=
  match aged_spec strftime t0 sPathBase fmt with
  | none => ERROR_BADFMT
  | some _ => ERROR_NONE

/-- The characters named as regular-expression metacharacters in the
description of the literal branch. -/
def METACHARACTERS : List Char :=
  ['^', '.', '[', '$', '(', ')', '|', '*', '+', '?', '{', '\\']

/-- A literal character as the description says it is emitted: itself, after
a backslash when it is a metacharacter. -/
def escaped (c : Char) : List Char := if c ∈ METACHARACTERS then ['\\', c] else [c]

/-! ## `ls_class`: comparators and `ls_create` -/

/-- The conversion to the `int` result of a comparator of a difference
computed in a signed 64 bit type (`time_t`, `off_t`). -/
def diff_to_int (x y : Int) : Int := toInt32 (toULong (x - y))

/-- The comparator `ls_sort_date`: `LSENT_MTIME(*a)-LSENT_MTIME(*b)` returned
as an `int`. -/
def ls_sort_date (a b : lsent_t) : Int := diff_to_int a.st_mtime b.st_mtime

/-- The comparator `ls_sort_size`: `LSENT_SIZE(*a)-LSENT_SIZE(*b)` returned as
an `int`.  The arguments are the `st_size` fields (`off_t`) of the entries. -/
def ls_sort_size (a_st_size b_st_size : Int) : Int := diff_to_int a_st_size b_st_size

/-- A member of a directory as one scan sees it: the name given by `readdir`
and the result of `stat` on it, `none` when `stat` fails, else the fields
`st_mtime` and `st_blocks`. -/
structure dirmember where
  d_name : String
  st : Option (Int × Nat)
  deriving DecidableEq, Repr

/-- The default selector `_select_all`. -/
def _select_all (_ent : lsent_t) : Bool := true

/-- The test of both scans on one member: the name is neither `.` nor `..`,
`stat` succeeds, and `select` accepts the entry.  The result is the entry. -/
def ls_selected (select : lsent_t → Bool) (m : dirmember) : Option lsent_t :=
  if m.d_name ≠ "." ∧ m.d_name ≠ ".." then
    match m.st with
    | some (mtime, blocks) =>
      if select ⟨m.d_name, mtime, blocks⟩ then some ⟨m.d_name, mtime, blocks⟩ else none
    | none => none
  else none

/-- The first scan of `ls_create`, which counts the selected members. -/
def ls_count (select : lsent_t → Bool) : List dirmember → Nat → Nat
  | [], ent_count => ent_count
  | m :: rest, ent_count =>
    match ls_selected select m with
    | some _ => ls_count select rest (ent_count + 1)
    | none => ls_count select rest ent_count

/-- The second scan of `ls_create`,
`while(i<list->ent_count && (dptr=readdir(dstream))!=NULL)`: `pent` holds the
`i` entries stored so far. -/
def ls_fill (select : lsent_t → Bool) (ent_count : Nat) :
    List dirmember → List lsent_t → List lsent_t
  | [], pent => pent
  | m :: rest, pent =>
    if pent.length < ent_count then
      match ls_selected select m with
      | some e => ls_fill select ent_count rest (pent ++ [e])
      | none => ls_fill select ent_count rest pent
    else pent

/-- The function `ls_create`.  The argument `dir` is `none` when the directory
cannot be found or opened, else the members that the first and the second
scan enumerate; `select` and `compar` are `none` for `NULL`; `qsort` is the C
library function.  The result is `none` for `NULL`, else the array `pent`. -/
def ls_create (dir : Option (List dirmember × List dirmember))
    (select : Option (lsent_t → Bool)) (compar : Option (lsent_t → lsent_t → Int))
    (qsort : (lsent_t → lsent_t → Int) → List lsent_t → List lsent_t) :
    Option (List lsent_t) :=
  match dir with
  | none => none
  | some (scan1, scan2) =>
    let sel := match select with
      | some f => f
      | none => _select_all
    let ent_count := ls_count sel scan1 0
    let pent := ls_fill sel ent_count scan2 []
    match compar with
    | some f => some (qsort f pent)
    | none => some pent

/-! ## `ls_class`: `ls_sort_alpha` and `ls_reorder` -/

/-- The C library function `strcmp` on bytes: the difference of the first two
bytes that differ, the end of a string counting as the null byte. -/
def strcmp : List Char → List Char → Int
  | [], [] => 0
  | [], b :: _ => 0 - (b.toNat : Int)
  | a :: _, [] => (a.toNat : Int)
  | a :: as, b :: bs => if a = b then strcmp as bs else (a.toNat : Int) - (b.toNat : Int)

/-- The comparator `ls_sort_alpha`:
`strcmp(LSENT_FILENAME(*a),LSENT_FILENAME(*b))`. -/
def ls_sort_alpha (a b : lsent_t) : Int := strcmp a.filename.toList b.filename.toList

/-- The function `ls_reorder` on the array `pent` of a snapshot: `qsort` is
called when there is more than one entry.  The result `none` stands for the
call of `qsort` with a null comparator, whose behaviour is undefined. -/
def ls_reorder (pent : List lsent_t) (compar : Option (lsent_t → lsent_t → Int))
    (qsort : (lsent_t → lsent_t → Int) → List lsent_t → List lsent_t) :
    Option (List lsent_t) :=
  if pent.length > 1 then
    match compar with
    | some f => some (qsort f pent)
    | none => none
  else some pent

/-- What the C library promises for one call of `qsort`: the result is an
arrangement of the array in which no entry compares greater than a later one. -/
def qsort_ok (qsort : (lsent_t → lsent_t → Int) → List lsent_t → List lsent_t)
    (compar : lsent_t → lsent_t → Int) (pent : List lsent_t) : Prop :=
  (qsort compar pent).Perm pent ∧ (qsort compar pent).Pairwise (fun a b => compar a b ≤ 0)

/-- A sorting function by insertion, one of the functions that `qsort` may
be: it keeps the order of entries that compare equal. -/
def qsort_by_insertion (compar : lsent_t → lsent_t → Int) (pent : List lsent_t) :
    List lsent_t :=
  pent.insertionSort (fun a b => compar a b ≤ 0)

/-! ## `datecycle`: the command line -/

def ERROR_NOPATH : Nat := 1
def ERROR_UIDGID : Nat := 6
def ERROR_CMDLINE : Nat := 10

def DC_ZERO : Nat := 1
def DC_FAKE : Nat := 2
def DC_VERBOSE : Nat := 4
def DC_CURTIME : Nat := 8

/-- The option variables of `main`; `none` is a null pointer. -/
structure Options where
  opt_flags : Nat
  opt_fmt : Option String
  opt_limit : String
  opt_olddir : Option String
  opt_uname : Option String
  opt_gname : Option String
  opt_mode : Int
  deriving DecidableEq, Repr

/-- The default values set at the start of `main`. -/
def default_options : Options :=
  { opt_flags := 0, opt_fmt := some ".%Y%m%d%H%M", opt_limit := "14d", opt_olddir := none,
    opt_uname := none, opt_gname := none, opt_mode := -1 }

/-- The loop of case `'m'`: the leading octal digits are folded into
`opt_mode`; the result also holds the rest of the argument. -/
def octal_mode : List Char → Int → Int × List Char
  | [], mode => (mode, [])
  | c :: rest, mode =>
    if '0'.toNat ≤ c.toNat ∧ c.toNat ≤ '7'.toNat then
      octal_mode rest (mode * 8 + ((c.toNat - '0'.toNat : Nat) : Int))
    else (mode, c :: rest)

/-- The body of `switch(ch)` in `main` for the option `ch` that `getopt`
returned, `optarg` being the value of the variable `optarg` at that moment.
A case without `break` runs on into the next one: `'n'` into `'o'`, `'T'` into
`'u'`, and `'z'`, after `opt_flags|=DC_ZERO`, into `default`, which returns.
The result is the new values of the option variables, or the exit status that
`main` returns. -/
def main_option (o : Options) (ch : Char) (optarg : Option String) : Except Nat Options :=
  if ch = 'f' then .ok { o with opt_fmt := optarg }
  else if ch = 'g' then .ok { o with opt_gname := optarg }
  else if ch = 'l' then
    match optarg with
    | some a => if a ≠ "" then .ok { o with opt_limit := a } else .error ERROR_CMDLINE
    | none => .error ERROR_CMDLINE
  else if ch = 'm' then
    match octal_mode (optarg.getD "").toList 0 with
    | (mode, []) => .ok { o with opt_mode := mode }
    | (_, _ :: _) => .error ERROR_CMDLINE
  else if ch = 'n' then
    .ok { o with opt_flags := o.opt_flags ||| (DC_FAKE ||| DC_VERBOSE), opt_olddir := optarg }
  else if ch = 'o' then .ok { o with opt_olddir := optarg }
  else if ch = 'T' then
    .ok { o with opt_flags := o.opt_flags ||| DC_CURTIME, opt_uname := optarg }
  else if ch = 'u' then .ok { o with opt_uname := optarg }
  else if ch = 'v' then .ok { o with opt_flags := o.opt_flags ||| DC_VERBOSE }
  else if ch = 'V' then .ok o
  else if ch = 'z' then .error ERROR_CMDLINE
  else .error ERROR_CMDLINE

/-- The loop `while((ch=getopt(...))!=EOF)` over the options that `getopt`
returns, each with the value of `optarg`. -/
def main_options : List (Char × Option String) → Options → Except Nat Options
  | [], o => .ok o
  | (ch, optarg) :: rest, o =>
    match main_option o ch optarg with
    | .error rc => .error rc
    | .ok o1 => main_options rest o1

/-- The loop of `main` over the path arguments: the value of the variable
`rc` after it.  The arguments give, for each path, the value returned by
`datecycle` and the value returned by `remove_old_files`. -/
def main_paths (datecycle_rc remove_rc : String → Nat) : List String → Nat → Nat
  | [], rc => rc
  | path :: rest, rc =>
    if datecycle_rc path ≠ ERROR_NONE then
      main_paths datecycle_rc remove_rc rest (datecycle_rc path)
    else if remove_rc path ≠ ERROR_NONE then
      main_paths datecycle_rc remove_rc rest (remove_rc path)
    else main_paths datecycle_rc remove_rc rest rc

/-- Whether the first character of a string is a decimal digit, `isdigit`. -/
def first_isdigit (s : String) : Bool :=
  match s.toList with
  | c :: _ => decide ('0'.toNat ≤ c.toNat ∧ c.toNat ≤ '9'.toNat)
  | [] => false

/-- The test `name && *name && !isdigit(*name) && !lookup(name)` that `main`
applies to the user and to the group name. -/
def unknown_name (name : Option String) (lookup : String → Bool) : Bool :=
  match name with
  | some u => u ≠ "" && !first_isdigit u && !lookup u
  | none => false

/-- The function `main` of `datecycle`: `opts` are the options that `getopt`
returns, `paths` the remaining arguments, `getpwnam` and `getgrnam` tell
whether a name is known.  The result is the exit status and the final value
of the variable `rc`. -/
def main (opts : List (Char × Option String)) (paths : List String)
    (getpwnam getgrnam : String → Bool) (datecycle_rc remove_rc : String → Nat) :
    Nat × Nat :=
  match main_options opts default_options with
  | .error status => (status, ERROR_NONE)
  | .ok o =>
    if unknown_name o.opt_uname getpwnam then (ERROR_UIDGID, ERROR_NONE)
    else if unknown_name o.opt_gname getgrnam then (ERROR_UIDGID, ERROR_NONE)
    else (ERROR_NONE, main_paths datecycle_rc remove_rc paths ERROR_NONE)

/-! ## `datecycle`: user and group -/

/-- The C library function `atoi` on a string that starts with a digit: the
value of its leading decimal digits. -/
def atoi_digits : List Char → Int → Int
  | [], v => v
  | c :: rest, v =>
    if '0'.toNat ≤ c.toNat ∧ c.toNat ≤ '9'.toNat then
      atoi_digits rest (10 * v + ((c.toNat - '0'.toNat : Nat) : Int))
    else v

/-- The outcome of the user and group handling of `datecycle`: the value of
`rc`, the ids, and the names looked up with `getpwnam` and `getgrnam`. -/
structure IdResult where
  rc : Nat
  nUid : Int
  nGid : Int
  pw_lookups : List String
  gr_lookups : List String
  deriving DecidableEq, Repr

/-- The statements of `datecycle` that handle `uname` and `gname`.  The ids
start as `-1`; `getpwnam` and `getgrnam` give the id of a known name. -/
def datecycle_ids (uname gname : Option String) (getpwnam getgrnam : String → Option Int) :
    IdResult :=
  let u : IdResult :=
    match uname with
    | none => { rc := ERROR_NONE, nUid := -1, nGid := -1, pw_lookups := [], gr_lookups := [] }
    | some name =>
      match name.toList with
      | [] => { rc := ERROR_NONE, nUid := -1, nGid := -1, pw_lookups := [], gr_lookups := [] }
      | c :: _ =>
        if c ∈ "012345678".toList then
          { rc := ERROR_NONE, nUid := atoi_digits name.toList 0, nGid := -1,
            pw_lookups := [], gr_lookups := [] }
        else
          match getpwnam name with
          | none =>
            { rc := ERROR_UIDGID, nUid := -1, nGid := -1, pw_lookups := [name],
              gr_lookups := [] }
          | some uid =>
            { rc := ERROR_NONE, nUid := uid, nGid := -1, pw_lookups := [name],
              gr_lookups := [] }
  if u.rc ≠ ERROR_NONE then u
  else
    match gname with
    | none => u
    | some name =>
      match name.toList with
      | [] => u
      | c :: _ =>
        if c ∈ "0123456789".toList then { u with nGid := atoi_digits name.toList 0 }
        else
          match getgrnam name with
          | none => { u with rc := ERROR_UIDGID, gr_lookups := [name] }
          | some gid => { u with nGid := gid, gr_lookups := [name] }

/-! ## `secdel` -/

/-- An open file: its bytes and the file offset. -/
structure OpenFile where
  data : List Nat
  pos : Nat
  deriving DecidableEq, Repr

/-- A successful `write(f,buf,sizeof(buf))`: the bytes of `buf` replace those
at the file offset, extend the file past its end, and the offset advances. -/
def write (f : OpenFile) (buf : List Nat) : OpenFile :=
  { data := f.data.take f.pos ++ buf ++ f.data.drop (f.pos + buf.length),
    pos := f.pos + buf.length }

/-- The loop `for(j=0;j<fsize;++j) write(f,(void*)buf,sizeof(buf));`. -/
def write_blocks (buf : List Nat) : Nat → OpenFile → OpenFile
  | 0, f => f
  | j + 1, f => write_blocks buf j (write f buf)

/-- The part of `secdel` between `fstat` and `close`: the bytes of the file
after the loop over the patterns `0xaa`, `0x55` and 256 values of
`rand()&0xff`, for a file whose bytes were `data`; `rand j` is the value of
the call number `j` of `rand`.  The file stays open from `open(filename,
O_RDWR)` on, with no call that moves the offset but `write`. -/
def secdel (data : List Nat) (rand : Nat → Nat) : List Nat :=
  let fsize := data.length / 256 + 1
  let bytes : List Nat := [0xaa, 0x55]
  ((List.range 3).foldl
    (fun f i =>
      let buf : List Nat :=
        if i < 2 then List.replicate 256 (bytes.getD i 0)
        else (List.range 256).map (fun j => rand j % 256)
      write_blocks buf fsize f)
    ({ data := data, pos := 0 } : OpenFile)).data

/-! ## The two calls of `max_time_length` in `remove_old_files` -/

/-- The statements shared by the regexp cases for a field `f`:
`if (sRE) if (n+m<nRE) strcpy(sRE+n,field); else return -1; n+=m;`. -/
def put_step (f : List Char) (nRE : Int) (st : MtlState) : Option MtlState :=
  match put_field f st.n st.sRE nRE with
  | none => none
  | some buf => some { st with n := st.n + (f.length : Int), sRE := buf }

/-- The field that the `switch` copies for the directive `d` in the mode
`MTL_FILENAME|MTL_REGEXP`, read off a run of the case on an empty buffer;
`none` when the case returns `-1`. -/
def regexp_field (d : Char) : Option (List Char) :=
  match mtl_directive (fun _ _ => 0) (MTL_FILENAME ||| MTL_REGEXP) 64 d
      { t := ⟨0, 0, 0, 0, 0, 0, 0, 0, 0⟩, n := 0, sRE := some [] } with
  | some st => st.sRE
  | none => none

/-- In the mode `MTL_FILENAME|MTL_REGEXP` every step of the loop either
returns `-1` or copies a non-empty field. -/
def IsPut (step : Int → MtlState → Option MtlState) : Prop :=
  (∀ nRE st, step nRE st = none) ∨
    ∃ f : List Char, f ≠ [] ∧ ∀ nRE st, step nRE st = put_step f nRE st

/-! ## Arithmetic helpers -/

theorem toULong_of_nonneg (v : Int) (h0 : 0 ≤ v) (h1 : v < 2 ^ 64) :
    toULong v = v.toNat := by
  unfold toULong ULONG_MOD
  have : v % ((2 ^ 64 : Nat) : Int) = v := Int.emod_eq_of_lt h0 (by norm_num; omega)
  rw [this]

theorem toInt32_of_lt (v : Nat) (h : v < 2 ^ 31) : toInt32 v = (v : Int) := by
  unfold toInt32
  have h1 : v % 2 ^ 32 = v := Nat.mod_eq_of_lt (by omega)
  rw [h1, if_pos h]

theorem LS_MTIME_of_get (l : List lsent_t) (i : Nat) (e : lsent_t) (h : l[i]? = some e) :
    LS_MTIME l i = e.st_mtime := by
  simp [LS_MTIME, h]

theorem LS_MTIME_mem (l : List lsent_t) (i : Nat) (h : i < l.length) :
    ∃ e ∈ l, LS_MTIME l i = e.st_mtime := by
  refine ⟨l.get ⟨i, h⟩, List.get_mem l i h, ?_⟩
  apply LS_MTIME_of_get
  simp [List.getElem?_eq_getElem h]


theorem convert_limit_f (limit : Nat) (units : Char)
    (hu : units = Char.ofNat 0 ∨ units = ' ' ∨ units = 'f') :
    convert_limit limit units = .ok (Unit3.f, limit) := by
  unfold convert_limit
  rw [if_pos hu]

theorem remove_by_count_of_le (list : List lsent_t) (L : Nat)
    (hc : list.length < 2 ^ 31) (hL : L ≤ 2 ^ 31 - 1) :
    remove_by_count list L = List.range (list.length - L) := by
  unfold remove_by_count LS_COUNT ULONG_MOD
  have hLm : L % 2 ^ 64 = L := Nat.mod_eq_of_lt (by omega)
  rw [hLm]
  by_cases h : L ≤ list.length
  · have h1 : (list.length + (2 ^ 64 - L)) % 2 ^ 64 = list.length - L := by omega
    rw [h1, toInt32_of_lt _ (by omega)]
    exact congrArg List.range (Int.toNat_ofNat _)
  · have h1 : (list.length + (2 ^ 64 - L)) % 2 ^ 64 = 2 ^ 64 - (L - list.length) := by omega
    have h2 : toInt32 (2 ^ 64 - (L - list.length)) = -((L - list.length : Nat) : Int) := by
      unfold toInt32
      have h3 : (2 ^ 64 - (L - list.length)) % 2 ^ 32 = 2 ^ 32 - (L - list.length) := by omega
      rw [h3, if_neg (by omega)]
      omega
    rw [h1, h2]
    dsimp only
    have h4 : (-((L - list.length : Nat) : Int)).toNat = 0 := by omega
    have h5 : list.length - L = 0 := by omega
    rw [h4, h5]

theorem remove_by_count_negative (list : List lsent_t) (k : Nat)
    (hk : 1 ≤ k) (hc : list.length + k < 2 ^ 31) :
    remove_by_count list (main_limit (-(k : Int))) = List.range (list.length + k) := by
  have hm : main_limit (-(k : Int)) = 2 ^ 64 - k := by
    unfold main_limit toULong ULONG_MOD
    have : (-(k : Int)) % ((2 ^ 64 : Nat) : Int) = ((2 ^ 64 - k : Nat) : Int) := by
      push_cast
      omega
    rw [this]
    exact Int.toNat_ofNat _
  rw [hm]
  unfold remove_by_count LS_COUNT ULONG_MOD
  have h1 : (list.length + (2 ^ 64 - (2 ^ 64 - k) % 2 ^ 64)) % 2 ^ 64 = list.length + k := by
    omega
  rw [h1, toInt32_of_lt _ hc]
  exact congrArg List.range (Int.toNat_ofNat _)

theorem entries_at_range (list : List lsent_t) (n : Nat) (h : n ≤ list.length) :
    entries_at list (List.range n) = list.take n := by
  unfold entries_at
  induction n with
  | zero => simp
  | succ m ih =>
    have hm : m < list.length := by omega
    rw [List.range_succ, List.filterMap_append, ih (by omega)]
    simp only [List.filterMap_cons, List.filterMap_nil, List.getElem?_eq_getElem hm,
      List.take_succ, Option.toList]


theorem remove_by_age_of_bounds (list : List lsent_t) (d : Nat) (now : Int)
    (hd : (d : Int) ≤ now) (hnow : now < 2 ^ 63)
    (hm : ∀ e ∈ list, 0 ≤ e.st_mtime ∧ e.st_mtime ≤ now) :
    remove_by_age list d now =
      (List.range list.length).filter (fun i => decide (now - LS_MTIME list i > (d : Int))) := by
  unfold remove_by_age LS_COUNT
  apply List.filter_congr
  intro i hi
  have hi2 : i < list.length := List.mem_range.mp hi
  obtain ⟨e, he, hme⟩ := LS_MTIME_mem list i hi2
  obtain ⟨h0, h1⟩ := hm e he
  rw [hme, toULong_of_nonneg now (by omega) (by omega),
    toULong_of_nonneg e.st_mtime h0 (by omega)]
  apply decide_eq_decide.mpr
  unfold ULONG_MOD
  have hdm : d % 2 ^ 64 = d := Nat.mod_eq_of_lt (by omega)
  rw [hdm]
  have hx : (now.toNat + (2 ^ 64 - d)) % 2 ^ 64 = now.toNat - d := by omega
  rw [hx]
  omega


theorem suffix_kb_step (list : List lsent_t) (j : Nat) (hj : j < list.length) :
    suffix_kb list j = LS_BLOCKS list j / 2 + suffix_kb list (j + 1) := by
  unfold suffix_kb LS_BLOCKS
  rw [List.drop_eq_getElem_cons hj, List.getElem?_eq_getElem hj]
  simp only [List.map_cons, List.sum_cons, size_kb]

theorem suffix_kb_of_length_le (list : List lsent_t) (j : Nat) (hj : list.length ≤ j) :
    suffix_kb list j = 0 := by
  unfold suffix_kb
  rw [List.drop_eq_nil_of_le hj]
  rfl

theorem suffix_kb_succ_le (list : List lsent_t) (j : Nat) :
    suffix_kb list (j + 1) ≤ suffix_kb list j := by
  by_cases hj : j < list.length
  · rw [suffix_kb_step list j hj]
    omega
  · rw [suffix_kb_of_length_le list (j + 1) (by omega)]
    omega

theorem suffix_kb_antitone (list : List lsent_t) (i j : Nat) (h : i ≤ j) :
    suffix_kb list j ≤ suffix_kb list i := by
  induction j with
  | zero =>
    have : i = 0 := by omega
    rw [this]
  | succ m ih =>
    by_cases hi : i = m + 1
    · rw [hi]
    · exact Nat.le_trans (suffix_kb_succ_le list m) (ih (by omega))

theorem size_scan_spec (list : List lsent_t) (limit : Nat)
    (htot : suffix_kb list 0 < 2 ^ 64) :
    ∀ j x, j ≤ list.length → x = suffix_kb list j → x ≤ limit →
      size_scan list limit j x ≤ j ∧
      suffix_kb list (size_scan list limit j x) ≤ limit ∧
      (0 < size_scan list limit j x →
        limit < suffix_kb list (size_scan list limit j x - 1)) := by
  intro j
  induction j with
  | zero =>
    intro x _ hx hle
    simp only [size_scan]
    refine ⟨Nat.le_refl 0, ?_, ?_⟩
    · rw [← hx]; exact hle
    · intro h; omega
  | succ m ih =>
    intro x hj hx hle
    have hm : m < list.length := by omega
    have hstep := suffix_kb_step list m hm
    have hbound : suffix_kb list m ≤ suffix_kb list 0 := suffix_kb_antitone list 0 m (by omega)
    have hx1 : (x + LS_BLOCKS list m / 2) % ULONG_MOD = suffix_kb list m := by
      unfold ULONG_MOD
      rw [hx]
      omega
    simp only [size_scan, hx1]
    by_cases hc : suffix_kb list m ≤ limit
    · rw [if_pos hc]
      obtain ⟨h1, h2, h3⟩ := ih (suffix_kb list m) (by omega) rfl hc
      exact ⟨by omega, h2, h3⟩
    · rw [if_neg hc]
      refine ⟨Nat.le_refl _, ?_, ?_⟩
      · rw [← hx]; exact hle
      · intro _
        simp only [Nat.add_sub_cancel]
        omega



/-! ## Claims on the retention policy -/

/-- C1 (the code departs from the claim): with the limit `100y` at the time
`1800000000` the duration exceeds the current time, so the cutoff
`now - duration` is negative as an integer; `x-=limit` in `unsigned long` wraps
around instead, and an entry modified one hour ago is selected for deletion
although its modification time is not earlier than the cutoff. -/
theorem C1_time_cutoff_wraps :
    remove_old_files [⟨"log.202701150700", 1800000000 - 3600, 8⟩] 100 'y' 1800000000 = .ok [0] ∧
    ¬ ((1800000000 - 3600 : Int) < 1800000000 - 100 * (3600 * 24 * 365)) := by
  decide

/-- C2: for a current time `now` in the range of `time_t`, an hour limit `h`
with `h * 3600 ≤ now` and a snapshot whose modification times lie in
`[0, now]`, unit `'h'` selects exactly the entries with
`now - mtime > h * 3600`; entries aged 400, 25 and 1 hours with the limit 24
give exactly the 400 hour and the 25 hour entry. -/
theorem C2_hours_policy (now : Int) (h : Nat) (list : List lsent_t)
    (hh : (h : Int) * 3600 ≤ now) (hnow : now < 2 ^ 63)
    (hm : ∀ e ∈ list, 0 ≤ e.st_mtime ∧ e.st_mtime ≤ now) :
    remove_old_files list h 'h' now =
      .ok ((List.range list.length).filter
        (fun i => decide (now - LS_MTIME list i > (h : Int) * 3600))) ∧
    (∀ e400 e25 e1 : lsent_t, e400.st_mtime = now - 400 * 3600 →
      e25.st_mtime = now - 25 * 3600 → e1.st_mtime = now - 1 * 3600 → 400 * 3600 ≤ now →
      remove_old_files [e400, e25, e1] 24 'h' now = .ok [0, 1] ∧
      entries_at [e400, e25, e1] [0, 1] = [e400, e25]) := by
  have key : ∀ (l : List lsent_t) (k : Nat), (k : Int) * 3600 ≤ now →
      (∀ e ∈ l, 0 ≤ e.st_mtime ∧ e.st_mtime ≤ now) →
      remove_old_files l k 'h' now =
        .ok ((List.range l.length).filter
          (fun i => decide (now - LS_MTIME l i > (k : Int) * 3600))) := by
    intro l k hk hl
    have hconv : convert_limit k 'h' = .ok (Unit3.s, k * 3600 % ULONG_MOD) := by
      unfold convert_limit
      rw [if_neg (by decide), if_pos rfl]
    have hmod : k * 3600 % ULONG_MOD = k * 3600 := by
      unfold ULONG_MOD
      exact Nat.mod_eq_of_lt (by omega)
    unfold remove_old_files
    rw [hconv, hmod]
    simp only
    rw [remove_by_age_of_bounds l (k * 3600) now (by push_cast; exact hk) hnow hl]
    push_cast
    rfl
  refine ⟨key list h hh hm, ?_⟩
  intro e400 e25 e1 h400 h25 h1 hge
  refine ⟨?_, rfl⟩
  rw [key [e400, e25, e1] 24 (by omega) (by
    intro e he
    simp only [List.mem_cons, List.mem_singleton, List.not_mem_nil, or_false] at he
    rcases he with rfl | rfl | rfl <;> omega)]
  have r3 : List.range 3 = [0, 1, 2] := by decide
  simp only [List.length_cons, List.length_nil, r3]
  have m0 : LS_MTIME [e400, e25, e1] 0 = e400.st_mtime := rfl
  have m1 : LS_MTIME [e400, e25, e1] 1 = e25.st_mtime := rfl
  have m2 : LS_MTIME [e400, e25, e1] 2 = e1.st_mtime := rfl
  have d0 : decide (now - LS_MTIME [e400, e25, e1] 0 > ((24 : Nat) : Int) * 3600) = true := by
    rw [m0, h400]; exact decide_eq_true (by omega)
  have d1 : decide (now - LS_MTIME [e400, e25, e1] 1 > ((24 : Nat) : Int) * 3600) = true := by
    rw [m1, h25]; exact decide_eq_true (by omega)
  have d2 : decide (now - LS_MTIME [e400, e25, e1] 2 > ((24 : Nat) : Int) * 3600) = false := by
    rw [m2, h1]; exact decide_eq_false (by omega)
  simp only [List.filter, d0, d1, d2]

/-- Witness of C2 at the time `1800000000` with the limit 24 hours. -/
theorem C2_hours_policy_witness :
    remove_old_files [⟨"a", 1800000000 - 400 * 3600, 8⟩, ⟨"b", 1800000000 - 25 * 3600, 8⟩,
      ⟨"c", 1800000000 - 3600, 8⟩] 24 'h' 1800000000 = .ok [0, 1] :=
  (C2_hours_policy 1800000000 24
    [⟨"a", 1800000000 - 400 * 3600, 8⟩, ⟨"b", 1800000000 - 25 * 3600, 8⟩,
      ⟨"c", 1800000000 - 3600, 8⟩] (by decide) (by decide) (by decide)).1


/-- C3: with unit `'\0'`, `' '` or `'f'`, a snapshot of `c` entries (`c` in
the range of `int`) and a limit `0 ≤ L ≤ 2^31-1`, exactly the first
`max (c - L) 0` entries are selected, which are the oldest ones of a snapshot
sorted oldest first; `L = 0` selects all, `L ≥ c` selects none, and four
entries with the limit 2 give the two oldest. -/
theorem C3_count_policy (list : List lsent_t) (L : Nat) (units : Char) (now : Int)
    (hu : units = Char.ofNat 0 ∨ units = ' ' ∨ units = 'f')
    (hc : list.length < 2 ^ 31) (hL : L ≤ 2 ^ 31 - 1) :
    remove_old_files list L units now = .ok (List.range (list.length - L)) ∧
    entries_at list (List.range (list.length - L)) = list.take (list.length - L) ∧
    (list.Pairwise (fun a b => a.st_mtime ≤ b.st_mtime) →
      ∀ a ∈ list.take (list.length - L), ∀ b ∈ list.drop (list.length - L),
        a.st_mtime ≤ b.st_mtime) ∧
    (L = 0 → remove_old_files list L units now = .ok (List.range list.length)) ∧
    (list.length ≤ L → remove_old_files list L units now = .ok []) ∧
    (∀ e1 e2 e3 e4 : lsent_t, e1.st_mtime < e2.st_mtime → e2.st_mtime < e3.st_mtime →
      e3.st_mtime < e4.st_mtime →
      remove_old_files [e1, e2, e3, e4] 2 units now = .ok [0, 1] ∧
      entries_at [e1, e2, e3, e4] [0, 1] = [e1, e2]) := by
  have key : ∀ (l : List lsent_t) (k : Nat), l.length < 2 ^ 31 → k ≤ 2 ^ 31 - 1 →
      remove_old_files l k units now = .ok (List.range (l.length - k)) := by
    intro l k hl hk
    unfold remove_old_files
    rw [convert_limit_f k units hu]
    simp only
    rw [remove_by_count_of_le l k hl hk]
  refine ⟨key list L hc hL, entries_at_range list _ (by omega), ?_, ?_, ?_, ?_⟩
  · intro hs a ha b hb
    have hsplit : list = list.take (list.length - L) ++ list.drop (list.length - L) :=
      (List.take_append_drop _ _).symm
    rw [hsplit] at hs
    exact (List.pairwise_append.mp hs).2.2 a ha b hb
  · intro h0
    rw [key list L hc hL, h0, Nat.sub_zero]
  · intro hle
    rw [key list L hc hL, Nat.sub_eq_zero_of_le hle]
    rfl
  · intro e1 e2 e3 e4 _ _ _
    refine ⟨?_, rfl⟩
    rw [key [e1, e2, e3, e4] 2 (by simp) (by decide)]
    rfl

/-- Witness of C3: four entries and the limit 2. -/
theorem C3_count_policy_witness :
    remove_old_files [⟨"a", 1, 8⟩, ⟨"b", 2, 8⟩, ⟨"c", 3, 8⟩, ⟨"d", 4, 8⟩] 2 'f' 100 =
      .ok (List.range (4 - 2)) :=
  (C3_count_policy [⟨"a", 1, 8⟩, ⟨"b", 2, 8⟩, ⟨"c", 3, 8⟩, ⟨"d", 4, 8⟩] 2 'f' 100
    (by decide) (by decide) (by decide)).1

/-- C4 (the code departs from the claim): for a negative limit `-k` as `main`
passes it, the difference `LS_COUNT(list)-limit` wraps to `c + k`, so the count
branch runs at the indices `0, ..., c+k-1`: every entry of the snapshot is
selected, and the index `c`, which lies outside the snapshot, is used. -/
theorem C4_negative_count_limit (list : List lsent_t) (k : Nat) (units : Char) (now : Int)
    (hu : units = Char.ofNat 0 ∨ units = ' ' ∨ units = 'f')
    (hk : 1 ≤ k) (hc : list.length + k < 2 ^ 31) :
    remove_old_files list (main_limit (-(k : Int))) units now =
      .ok (List.range (list.length + k)) ∧
    (∀ i, i < list.length → i ∈ List.range (list.length + k)) ∧
    list.length ∈ List.range (list.length + k) ∧ list[list.length]? = none := by
  refine ⟨?_, ?_, ?_, ?_⟩
  · unfold remove_old_files
    rw [convert_limit_f _ units hu]
    simp only
    rw [remove_by_count_negative list k hk hc]
  · intro i hi
    exact List.mem_range.mpr (by omega)
  · exact List.mem_range.mpr (by omega)
  · exact List.getElem?_eq_none (Nat.le_refl _)

/-- Witness of C4: one entry and the limit `-1`. -/
theorem C4_negative_count_limit_witness :
    remove_old_files [⟨"log.202701150700", 1800000000, 8⟩] (main_limit (-1)) 'f' 1800000000 =
      .ok [0, 1] :=
  (C4_negative_count_limit [⟨"log.202701150700", 1800000000, 8⟩] 1 'f' 1800000000
    (by decide) (by decide) (by decide)).1


theorem convert_limit_size (limit : Nat) (units : Char) (sh : Nat)
    (hu : (units = 'K' ∧ sh = 0) ∨ (units = 'M' ∧ sh = 10) ∨ (units = 'G' ∧ sh = 20))
    (hb : limit * 2 ^ sh < 2 ^ 64) :
    convert_limit limit units = .ok (Unit3.k, limit * 2 ^ sh) := by
  rcases hu with ⟨rfl, rfl⟩ | ⟨rfl, rfl⟩ | ⟨rfl, rfl⟩
  · simp [convert_limit]
  · have : limit * 1024 % ULONG_MOD = limit * 1024 :=
      Nat.mod_eq_of_lt (by unfold ULONG_MOD; omega)
    simp [convert_limit, this]
  · have : limit * 1048576 % ULONG_MOD = limit * 1048576 :=
      Nat.mod_eq_of_lt (by unfold ULONG_MOD; omega)
    simp [convert_limit, this]

theorem entries_at_reverse (list : List lsent_t) (idx : List Nat) :
    entries_at list idx.reverse = (entries_at list idx).reverse := by
  unfold entries_at
  exact List.filterMap_reverse _ _

/-- C5 (as amended): for a size limit whose budget `limit * 2^sh` KB (`sh` is
0, 10, 20 for `'K'`, `'M'`, `'G'`) fits `limit_t` and a snapshot whose sizes
total less than `2^64` KB, let `k` be the largest number of newest entries
whose cumulative size is at most the budget; exactly the `c - k` oldest entries
are selected.  The retained entries total no more than the budget, one more
retained entry would exceed it, and nothing is selected when all fit. -/
theorem C5_size_policy (list : List lsent_t) (limit : Nat) (units : Char) (sh : Nat)
    (now : Int)
    (hu : (units = 'K' ∧ sh = 0) ∨ (units = 'M' ∧ sh = 10) ∨ (units = 'G' ∧ sh = 20))
    (hb : limit * 2 ^ sh < 2 ^ 64) (htot : newest_total list list.length < 2 ^ 64) :
    ∃ k, k ≤ list.length ∧
      remove_old_files list limit units now = .ok (List.range (list.length - k)).reverse ∧
      entries_at list (List.range (list.length - k)).reverse =
        (list.take (list.length - k)).reverse ∧
      newest_total list k ≤ limit * 2 ^ sh ∧
      (∀ k2, k2 ≤ list.length → newest_total list k2 ≤ limit * 2 ^ sh → k2 ≤ k) ∧
      (k < list.length → limit * 2 ^ sh < newest_total list (k + 1)) ∧
      (newest_total list list.length ≤ limit * 2 ^ sh →
        remove_old_files list limit units now = .ok []) := by
  have htot0 : suffix_kb list 0 < 2 ^ 64 := by
    have : newest_total list list.length = suffix_kb list 0 := by
      unfold newest_total
      rw [Nat.sub_self]
    rw [← this]
    exact htot
  obtain ⟨hr1, hr2, hr3⟩ := size_scan_spec list (limit * 2 ^ sh) htot0 list.length 0
    (Nat.le_refl _) (suffix_kb_of_length_le list _ (Nat.le_refl _)).symm (Nat.zero_le _)
  generalize hr : size_scan list (limit * 2 ^ sh) list.length 0 = r at hr1 hr2 hr3
  have hrun : remove_old_files list limit units now = .ok (List.range r).reverse := by
    unfold remove_old_files
    rw [convert_limit_size limit units sh hu hb]
    simp only
    unfold remove_by_size LS_COUNT
    rw [hr]
  have hsub : list.length - (list.length - r) = r := by omega
  have hmax : ∀ k2, k2 ≤ list.length → newest_total list k2 ≤ limit * 2 ^ sh →
      k2 ≤ list.length - r := by
    intro k2 hk2 hfit
    by_contra hlt
    have hpos : 0 < r := by omega
    have h1 := hr3 hpos
    have h2 : suffix_kb list (r - 1) ≤ suffix_kb list (list.length - k2) :=
      suffix_kb_antitone list _ _ (by omega)
    unfold newest_total at hfit
    omega
  refine ⟨list.length - r, Nat.sub_le _ _, ?_, ?_, ?_, hmax, ?_, ?_⟩
  · rw [hsub]
    exact hrun
  · rw [hsub, entries_at_reverse, entries_at_range list r hr1]
  · unfold newest_total
    rw [hsub]
    exact hr2
  · intro hlt
    have hpos : 0 < r := by omega
    have h1 := hr3 hpos
    unfold newest_total
    have : list.length - (list.length - r + 1) = r - 1 := by omega
    rw [this]
    exact h1
  · intro hfit
    have := hmax list.length (Nat.le_refl _) hfit
    have hr0 : r = 0 := by omega
    rw [hrun, hr0]
    rfl

/-- Witness of C5: three entries of 5, 20 and 10 KB and the limit 25 KB. -/
theorem C5_size_policy_witness :
    ∃ k, k ≤ 3 ∧
      remove_old_files [⟨"a", 1, 10⟩, ⟨"b", 2, 40⟩, ⟨"c", 3, 20⟩] 25 'K' 100 =
        .ok (List.range (3 - k)).reverse := by
  obtain ⟨k, h1, h2, _⟩ := C5_size_policy [⟨"a", 1, 10⟩, ⟨"b", 2, 40⟩, ⟨"c", 3, 20⟩] 25 'K' 0 100
    (by decide) (by decide) (by decide)
  exact ⟨k, h1, h2⟩

/-- C5 (counterexample to the claim as stated): with the limit `2^54` and unit
`'M'` the budget `limit * 2^10` KB is far above the single entry of 1 KB, yet
`limit<<=10` leaves 0 in the `unsigned long` and the entry is selected. -/
theorem C5_counterexample :
    remove_old_files [⟨"log.202701150700", 1800000000, 2⟩] (2 ^ 54) 'M' 1800000000 = .ok [0] ∧
    newest_total [⟨"log.202701150700", 1800000000, 2⟩] 1 ≤ 2 ^ 54 * 2 ^ 10 := by
  decide

/-- C6 (as amended): for the snapshot with sizes 10 KB, 20 KB and 5 KB from
newest to oldest and the limit 25 KB, the size branch selects the two oldest
entries (20 KB and 5 KB) and retains only the newest one (10 KB). -/
theorem C6_size_example (now : Int) (n5 n20 n10 : String) (t5 t20 t10 : Int) :
    remove_old_files [⟨n5, t5, 10⟩, ⟨n20, t20, 40⟩, ⟨n10, t10, 20⟩] 25 'K' now = .ok [1, 0] ∧
    entries_at [⟨n5, t5, 10⟩, ⟨n20, t20, 40⟩, ⟨n10, t10, 20⟩] [1, 0] =
      [⟨n20, t20, 40⟩, ⟨n5, t5, 10⟩] := by
  refine ⟨?_, rfl⟩
  simp [remove_old_files, convert_limit, remove_by_size, size_scan, LS_COUNT, LS_BLOCKS,
    ULONG_MOD, List.range_succ]

/-- C6 (counterexample to the claim as stated): the selection is not the
oldest entry alone; the 20 KB entry at index 1 is selected as well. -/
theorem C6_counterexample :
    remove_old_files [⟨"log.1", 1, 10⟩, ⟨"log.2", 2, 40⟩, ⟨"log.3", 3, 20⟩] 25 'K' 100 ≠ .ok [0] ∧
    (∃ sel, remove_old_files [⟨"log.1", 1, 10⟩, ⟨"log.2", 2, 40⟩, ⟨"log.3", 3, 20⟩] 25 'K' 100
      = .ok sel ∧ 1 ∈ sel) := by
  refine ⟨by decide, [1, 0], by decide, by decide⟩


/-! ## Claims on the pattern derived from the format -/

/-- C8: for the default format `.%Y%m%d%H%M` the regexp mode with
`MTL_FILENAME` returns the length 42 and writes exactly
`\.[0-9]{4}[0-9]{2}[0-9]{2}[0-9]{2}[0-9]{2}`, which `remove_old_files` places
between `^` with the base name and the compression group ending in `$`; the
suffix mode returns the width 13. -/
theorem C8_default_format (strftime : Char → tm → Nat) (t0 : tm) (buf base : List Char) :
    max_time_length strftime t0 DEFAULT_FORMAT (MTL_FILENAME ||| MTL_REGEXP) none 0 =
      (42, none) ∧
    max_time_length strftime t0 DEFAULT_FORMAT (MTL_FILENAME ||| MTL_REGEXP) (some buf) 43 =
      (42, some "\\.[0-9]{4}[0-9]{2}[0-9]{2}[0-9]{2}[0-9]{2}".toList) ∧
    max_time_length strftime t0 DEFAULT_FORMAT (MTL_FILENAME ||| MTL_SUFFIX) none 0 =
      (13, none) ∧
    aged_spec strftime t0 base DEFAULT_FORMAT =
      some ('^' :: base ++ "\\.[0-9]{4}[0-9]{2}[0-9]{2}[0-9]{2}[0-9]{2}".toList ++
        "(.(C|Z|gz|z))?$".toList) ∧
    ls_match_RE ("^\\.[0-9]{4}[0-9]{2}[0-9]{2}[0-9]{2}[0-9]{2}$".toList)
      ".202701150700".toList = some true ∧
    ls_match_RE ("^\\.[0-9]{4}[0-9]{2}[0-9]{2}[0-9]{2}[0-9]{2}$".toList)
      ".20270115070".toList = some false := by
  refine ⟨rfl, rfl, rfl, rfl, by decide, by decide⟩


/-- The directives of the table `fixed_fragment`. -/
theorem fixed_fragment_cases (d : Char) (h : (fixed_fragment d).isSome = true) :
    d ∈ ['C', 'd', 'g', 'H', 'I', 'm', 'M', 'S', 'U', 'V', 'W', 'y', 'j', 'G', 'Y', 'p', 'P',
      'R', 'T', 'F'] := by
  by_contra hn
  simp only [List.mem_cons, List.mem_singleton, List.not_mem_nil, or_false, not_or] at hn
  obtain ⟨h1, h2, h3, h4, h5, h6, h7, h8, h9, h10, h11, h12, h13, h14, h15, h16, h17, h18,
    h19, h20⟩ := hn
  simp [fixed_fragment, h1, h2, h3, h4, h5, h6, h7, h8, h9, h10, h11, h12, h13, h14, h15, h16,
    h17, h18, h19, h20] at h

/-- For a directive of the table the `switch` takes a case of fixed fragment
and width, which are the ones of the table. -/
theorem mtl_directive_fixed (strftime : Char → tm → Nat) (mode : Nat) (nRE : Int) (d : Char)
    (st : MtlState) (h : (fixed_fragment d).isSome = true) :
    ∃ f w, fixed_fragment d = some (f, w) ∧
      mtl_directive strftime mode nRE d st = fixed_case mode nRE f (w : Int) st := by
  have hc := fixed_fragment_cases d h
  simp only [List.mem_cons, List.mem_singleton, List.not_mem_nil, or_false] at hc
  rcases hc with rfl | rfl | rfl | rfl | rfl | rfl | rfl | rfl | rfl | rfl | rfl | rfl | rfl |
    rfl | rfl | rfl | rfl | rfl | rfl | rfl <;> exact ⟨_, _, rfl, rfl⟩

theorem fixed_case_regexp_take (mode : Nat) (nRE : Int) (f : String) (w : Int)
    (st : MtlState) (buf : List Char) (hmode : mode &&& MTL_REGEXP ≠ 0)
    (hb : st.sRE = some buf) (hfit : st.n + (f.toList.length : Int) < nRE) :
    fixed_case mode nRE f w st =
      some { st with n := st.n + (f.toList.length : Int),
                     sRE := some (buf.take st.n.toNat ++ f.toList) } := by
  unfold fixed_case put_field
  rw [if_pos hmode, hb]
  simp only
  rw [if_pos hfit]

theorem fixed_case_regexp_some (mode : Nat) (nRE : Int) (f : String) (w : Int)
    (st : MtlState) (buf : List Char) (hmode : mode &&& MTL_REGEXP ≠ 0)
    (hb : st.sRE = some buf) (hlen : st.n = (buf.length : Int))
    (hfit : st.n + (f.toList.length : Int) < nRE) :
    fixed_case mode nRE f w st =
      some { st with n := st.n + (f.toList.length : Int), sRE := some (buf ++ f.toList) } := by
  rw [fixed_case_regexp_take mode nRE f w st buf hmode hb hfit]
  have : List.take st.n.toNat buf = buf := by
    rw [hlen, Int.toNat_ofNat]
    exact List.take_length _
  rw [this]

theorem fixed_case_regexp_none (mode : Nat) (nRE : Int) (f : String) (w : Int)
    (st : MtlState) (hmode : mode &&& MTL_REGEXP ≠ 0) (hb : st.sRE = none) :
    fixed_case mode nRE f w st =
      some { st with n := st.n + (f.toList.length : Int), sRE := none } := by
  unfold fixed_case put_field
  rw [if_pos hmode, hb]

theorem fixed_case_suffix (mode : Nat) (nRE : Int) (f : String) (w : Int)
    (st : MtlState) (hmode : ¬ mode &&& MTL_REGEXP ≠ 0) :
    fixed_case mode nRE f w st = some { st with n := st.n + w } := by
  unfold fixed_case
  rw [if_neg hmode]

theorem format_of_cons (d : Char) (ds : List Char) :
    format_of (d :: ds) = '%' :: d :: format_of ds := rfl

theorem fragments_of_cons (d : Char) (ds : List Char) (f : String) (w : Nat)
    (h : fixed_fragment d = some (f, w)) :
    fragments_of (d :: ds) = f.toList ++ fragments_of ds := by
  unfold fragments_of
  rw [List.flatMap_cons, h]

theorem widths_of_cons (d : Char) (ds : List Char) (f : String) (w : Nat)
    (h : fixed_fragment d = some (f, w)) :
    widths_of (d :: ds) = w + widths_of ds := by
  unfold widths_of
  rw [List.map_cons, List.sum_cons, h]

theorem mtl_loop_directive (strftime : Char → tm → Nat) (mode : Nat) (nRE : Int) (d : Char)
    (rest : List Char) (st st1 : MtlState)
    (h : mtl_directive strftime mode nRE d st = some st1) :
    mtl_loop strftime mode nRE ('%' :: d :: rest) st = mtl_loop strftime mode nRE rest st1 := by
  simp only [mtl_loop, if_true, h]

theorem mtl_loop_fixed_regexp (strftime : Char → tm → Nat) (mode : Nat) (nRE : Int)
    (hmode : mode &&& MTL_REGEXP ≠ 0) :
    ∀ (ds : List Char) (st : MtlState) (buf : List Char),
      (∀ d ∈ ds, (fixed_fragment d).isSome = true) →
      st.sRE = some buf → st.n = (buf.length : Int) →
      st.n + ((fragments_of ds).length : Int) < nRE →
      mtl_loop strftime mode nRE (format_of ds) st =
        (st.n + ((fragments_of ds).length : Int), some (buf ++ fragments_of ds)) := by
  intro ds
  induction ds with
  | nil =>
    intro st buf _ hb _ _
    simp [format_of, fragments_of, mtl_loop, hb]
  | cons d ds ih =>
    intro st buf hds hb hlen hfit
    obtain ⟨f, w, hf, hdir⟩ := mtl_directive_fixed strftime mode nRE d st
      (hds d (List.mem_cons_self _ _))
    rw [fragments_of_cons d ds f w hf] at hfit ⊢
    rw [List.length_append] at hfit ⊢
    push_cast at hfit ⊢
    rw [fixed_case_regexp_some mode nRE f w st buf hmode hb hlen (by omega)] at hdir
    rw [format_of_cons, mtl_loop_directive strftime mode nRE d _ st _ hdir]
    rw [ih _ (buf ++ f.toList) (fun e he => hds e (List.mem_cons_of_mem _ he)) rfl
      (by simp only [List.length_append]; push_cast; omega)
      (by simp only; omega)]
    simp only [List.append_assoc, Int.add_assoc]

theorem mtl_loop_fixed_sizing (strftime : Char → tm → Nat) (mode : Nat) (nRE : Int)
    (hmode : mode &&& MTL_REGEXP ≠ 0) :
    ∀ (ds : List Char) (st : MtlState),
      (∀ d ∈ ds, (fixed_fragment d).isSome = true) → st.sRE = none →
      mtl_loop strftime mode nRE (format_of ds) st =
        (st.n + ((fragments_of ds).length : Int), none) := by
  intro ds
  induction ds with
  | nil =>
    intro st _ hb
    simp [format_of, fragments_of, mtl_loop, hb]
  | cons d ds ih =>
    intro st hds hb
    obtain ⟨f, w, hf, hdir⟩ := mtl_directive_fixed strftime mode nRE d st
      (hds d (List.mem_cons_self _ _))
    rw [fragments_of_cons d ds f w hf, List.length_append]
    push_cast
    rw [fixed_case_regexp_none mode nRE f w st hmode hb] at hdir
    rw [format_of_cons, mtl_loop_directive strftime mode nRE d _ st _ hdir]
    rw [ih _ (fun e he => hds e (List.mem_cons_of_mem _ he)) rfl]
    simp only [Int.add_assoc]

theorem mtl_loop_fixed_suffix (strftime : Char → tm → Nat) (mode : Nat) (nRE : Int)
    (hmode : ¬ mode &&& MTL_REGEXP ≠ 0) :
    ∀ (ds : List Char) (st : MtlState),
      (∀ d ∈ ds, (fixed_fragment d).isSome = true) →
      mtl_loop strftime mode nRE (format_of ds) st = (st.n + (widths_of ds : Int), st.sRE) := by
  intro ds
  induction ds with
  | nil =>
    intro st _
    simp [format_of, widths_of, mtl_loop]
  | cons d ds ih =>
    intro st hds
    obtain ⟨f, w, hf, hdir⟩ := mtl_directive_fixed strftime mode nRE d st
      (hds d (List.mem_cons_self _ _))
    rw [widths_of_cons d ds f w hf]
    push_cast
    rw [fixed_case_suffix mode nRE f w st hmode] at hdir
    rw [format_of_cons, mtl_loop_directive strftime mode nRE d _ st _ hdir]
    rw [ih _ (fun e he => hds e (List.mem_cons_of_mem _ he))]
    simp only [Int.add_assoc]


/-- C7 (the code departs from the claim): for the format `%u`, whose expansion
is the weekday digit `1` to `7`, the pattern compiled by `remove_old_files`
for the base name `log` is `^log[0=9](.(C|Z|gz|z))?$`; its bracket expression
holds the three characters `0`, `=` and `9`, so none of the names `log1` to
`log7` that `strftime` can produce is matched. -/
theorem C7_weekday_digit_rejected (strftime : Char → tm → Nat) (t0 : tm) :
    aged_spec strftime t0 "log".toList "%u".toList =
      some "^log[0=9](.(C|Z|gz|z))?$".toList ∧
    regcomp "[0=9]".toList = some (ERE.bracket false [('0', '0'), ('=', '='), ('9', '9')]) ∧
    (∀ c ∈ "1234567".toList,
      ls_match_RE "^log[0=9](.(C|Z|gz|z))?$".toList ("log".toList ++ [c]) = some false) := by
  refine ⟨rfl, by decide, by decide⟩

/-- C9: for a format made only of the fixed-width directives of the table,
the regexp mode (with or without `MTL_FILENAME`) returns the length of the
concatenated fragments and, given a buffer that holds them, writes exactly
their concatenation in template order (nothing for the empty format); the
suffix mode returns the sum of the widths.  Formats, fragments and widths of a
concatenation are the concatenations and the sum of those of the parts. -/
theorem C9_fixed_width_directives (strftime : Char → tm → Nat) (t0 : tm) (ds : List Char)
    (buf : List Char) (sRE : Option (List Char)) (nRE nRE1 : Int)
    (hds : ∀ d ∈ ds, (fixed_fragment d).isSome = true)
    (hn : ((fragments_of ds).length : Int) < nRE) :
    max_time_length strftime t0 (format_of ds) MTL_REGEXP (some buf) nRE =
      (((fragments_of ds).length : Int), some (if ds = [] then buf else fragments_of ds)) ∧
    max_time_length strftime t0 (format_of ds) (MTL_FILENAME ||| MTL_REGEXP) (some buf) nRE =
      (((fragments_of ds).length : Int), some (if ds = [] then buf else fragments_of ds)) ∧
    max_time_length strftime t0 (format_of ds) (MTL_FILENAME ||| MTL_REGEXP) none nRE1 =
      (((fragments_of ds).length : Int), none) ∧
    max_time_length strftime t0 (format_of ds) MTL_SUFFIX sRE nRE1 =
      ((widths_of ds : Int), sRE) ∧
    max_time_length strftime t0 (format_of ds) (MTL_FILENAME ||| MTL_SUFFIX) sRE nRE1 =
      ((widths_of ds : Int), sRE) ∧
    (∀ ds1 ds2, ds = ds1 ++ ds2 →
      format_of ds = format_of ds1 ++ format_of ds2 ∧
      fragments_of ds = fragments_of ds1 ++ fragments_of ds2 ∧
      widths_of ds = widths_of ds1 + widths_of ds2) := by
  have hre : ∀ mode, mode &&& MTL_REGEXP ≠ 0 →
      max_time_length strftime t0 (format_of ds) mode (some buf) nRE =
        (((fragments_of ds).length : Int),
          some (if ds = [] then buf else fragments_of ds)) := by
    intro mode hmode
    unfold max_time_length
    cases ds with
    | nil => rfl
    | cons d ds1 =>
      obtain ⟨f, w, hf, hdir⟩ := mtl_directive_fixed strftime mode nRE d
        { t := t0, n := 0, sRE := some buf } (hds d (List.mem_cons_self _ _))
      rw [fragments_of_cons d ds1 f w hf] at hn ⊢
      rw [List.length_append] at hn ⊢
      push_cast at hn ⊢
      rw [fixed_case_regexp_take mode nRE f w _ buf hmode rfl (by simp only; omega)] at hdir
      rw [format_of_cons, mtl_loop_directive strftime mode nRE d _ _ _ hdir]
      rw [mtl_loop_fixed_regexp strftime mode nRE hmode ds1 _ (f.toList)
        (fun e he => hds e (List.mem_cons_of_mem _ he)) (by simp)
        (by simp) (by simp only; omega)]
      simp
  have hsz : ∀ mode, mode &&& MTL_REGEXP ≠ 0 →
      max_time_length strftime t0 (format_of ds) mode none nRE1 =
        (((fragments_of ds).length : Int), none) := by
    intro mode hmode
    unfold max_time_length
    rw [mtl_loop_fixed_sizing strftime mode nRE1 hmode ds _ hds rfl]
    simp
  have hsu : ∀ mode, ¬ mode &&& MTL_REGEXP ≠ 0 →
      max_time_length strftime t0 (format_of ds) mode sRE nRE1 =
        ((widths_of ds : Int), sRE) := by
    intro mode hmode
    unfold max_time_length
    rw [mtl_loop_fixed_suffix strftime mode nRE1 hmode ds _ hds]
    simp
  refine ⟨hre _ (by decide), hre _ (by decide), hsz _ (by decide), hsu _ (by decide),
    hsu _ (by decide), ?_⟩
  intro ds1 ds2 hsplit
  subst hsplit
  refine ⟨?_, ?_, ?_⟩
  · unfold format_of
    exact List.flatMap_append _ _ _
  · unfold fragments_of
    exact List.flatMap_append _ _ _
  · unfold widths_of
    rw [List.map_append, List.sum_append]

/-- Witness of C9: the format `%F%T`. -/
theorem C9_fixed_width_directives_witness :
    max_time_length (fun _ _ => 0) ⟨0, 0, 0, 1, 0, 127, 5, 14, 0⟩ "%F%T".toList
        (MTL_FILENAME ||| MTL_REGEXP) (some []) 45 =
      (44, some "[0-9]{4}(-[0-9]{2}){2}([0-9]{2}:){2}[0-9]{2}".toList) ∧
    max_time_length (fun _ _ => 0) ⟨0, 0, 0, 1, 0, 127, 5, 14, 0⟩ "%F%T".toList
        (MTL_FILENAME ||| MTL_SUFFIX) none 0 = (18, none) :=
  have h := C9_fixed_width_directives (fun _ _ => 0) ⟨0, 0, 0, 1, 0, 127, 5, 14, 0⟩
    ['F', 'T'] [] none 45 0 (by decide) (by decide)
  ⟨h.2.1, h.2.2.2.2.1⟩

/-- C10 (the code departs from the claim): the directives `%e` and `%k` give
the fragment `[0-9 ][0-9]` with width 2, but `%l`, whose expansion runs from
` 1` to `12`, stands in the two-digit group and gives `[0-9]{2}`; the name
`log 1` is matched by the pattern for `%e` and not by the pattern for `%l`. -/
theorem C10_space_padded_hour (strftime : Char → tm → Nat) (t0 : tm) (buf : List Char) :
    max_time_length strftime t0 "%e".toList (MTL_FILENAME ||| MTL_REGEXP) (some buf) 12 =
      (11, some "[0-9 ][0-9]".toList) ∧
    max_time_length strftime t0 "%k".toList (MTL_FILENAME ||| MTL_REGEXP) (some buf) 12 =
      (11, some "[0-9 ][0-9]".toList) ∧
    max_time_length strftime t0 "%l".toList (MTL_FILENAME ||| MTL_REGEXP) (some buf) 12 =
      (8, some "[0-9]{2}".toList) ∧
    max_time_length strftime t0 "%e".toList (MTL_FILENAME ||| MTL_SUFFIX) none 0 = (2, none) ∧
    max_time_length strftime t0 "%k".toList (MTL_FILENAME ||| MTL_SUFFIX) none 0 = (2, none) ∧
    max_time_length strftime t0 "%l".toList (MTL_FILENAME ||| MTL_SUFFIX) none 0 = (2, none) ∧
    aged_spec strftime t0 "log".toList "%l".toList =
      some "^log[0-9]{2}(.(C|Z|gz|z))?$".toList ∧
    ls_match_RE "^log[0-9]{2}(.(C|Z|gz|z))?$".toList "log 1".toList = some false ∧
    ls_match_RE "^log[0-9 ][0-9](.(C|Z|gz|z))?$".toList "log 1".toList = some true := by
  refine ⟨rfl, rfl, rfl, rfl, rfl, rfl, rfl, by decide, by decide⟩


/-- C11 (the code departs from the claim): for `%a`, `%A`, `%b`, `%B` and `%h`
the fragment is `[a-z]{2,}` and the pattern is compiled with `REG_EXTENDED`
alone, so matching is case sensitive: the names `logMon` and `logJanuary` are
not matched, while the lower-case `logmon` is. -/
theorem C11_names_case_sensitive (strftime : Char → tm → Nat) (t0 : tm) :
    (∀ d ∈ ['a', 'A', 'b', 'B', 'h'],
      aged_spec strftime t0 "log".toList ['%', d] =
        some "^log[a-z]{2,}(.(C|Z|gz|z))?$".toList) ∧
    ls_match_RE "^log[a-z]{2,}(.(C|Z|gz|z))?$".toList "logMon".toList = some false ∧
    ls_match_RE "^log[a-z]{2,}(.(C|Z|gz|z))?$".toList "logJanuary".toList = some false ∧
    ls_match_RE "^log[a-z]{2,}(.(C|Z|gz|z))?$".toList "logmon".toList = some true := by
  refine ⟨?_, by decide, by decide, by decide⟩
  intro d hd
  simp only [List.mem_cons, List.mem_singleton, List.not_mem_nil, or_false] at hd
  rcases hd with rfl | rfl | rfl | rfl | rfl <;> rfl

/-- C12 (the code departs from the claim): the base name is copied into the
pattern as it is, `"^%s%s%s"`, with no metacharacter escaped.  For `a.log` the
pattern is `^a.log\.[0-9]{4}...` and matches `aXlog.202701150700`; for `a+b`
it matches `aab.202701150700` and does not match `a+b.202701150700`. -/
theorem C12_base_name_not_escaped (strftime : Char → tm → Nat) (t0 : tm) :
    aged_spec strftime t0 "a.log".toList DEFAULT_FORMAT =
      some "^a.log\\.[0-9]{4}[0-9]{2}[0-9]{2}[0-9]{2}[0-9]{2}(.(C|Z|gz|z))?$".toList ∧
    ls_match_RE "^a.log\\.[0-9]{4}[0-9]{2}[0-9]{2}[0-9]{2}[0-9]{2}(.(C|Z|gz|z))?$".toList
      "aXlog.202701150700".toList = some true ∧
    aged_spec strftime t0 "a+b".toList DEFAULT_FORMAT =
      some "^a+b\\.[0-9]{4}[0-9]{2}[0-9]{2}[0-9]{2}[0-9]{2}(.(C|Z|gz|z))?$".toList ∧
    ls_match_RE "^a+b\\.[0-9]{4}[0-9]{2}[0-9]{2}[0-9]{2}[0-9]{2}(.(C|Z|gz|z))?$".toList
      "aab.202701150700".toList = some true ∧
    ls_match_RE "^a+b\\.[0-9]{4}[0-9]{2}[0-9]{2}[0-9]{2}[0-9]{2}(.(C|Z|gz|z))?$".toList
      "a+b.202701150700".toList = some false := by
  refine ⟨rfl, by decide, rfl, by decide, by decide⟩

/-- C13 (the code departs from the claim): the dot of `sCompressedRE`,
`(.(C|Z|gz|z))?$`, is not escaped and stands for any character, so the name
`log.202701150700Xgz` is matched just as `log.202701150700.gz` is. -/
theorem C13_extension_dot_unescaped (strftime : Char → tm → Nat) (t0 : tm) :
    aged_spec strftime t0 "log".toList DEFAULT_FORMAT =
      some "^log\\.[0-9]{4}[0-9]{2}[0-9]{2}[0-9]{2}[0-9]{2}(.(C|Z|gz|z))?$".toList ∧
    ls_match_RE "^log\\.[0-9]{4}[0-9]{2}[0-9]{2}[0-9]{2}[0-9]{2}(.(C|Z|gz|z))?$".toList
      "log.202701150700Xgz".toList = some true ∧
    ls_match_RE "^log\\.[0-9]{4}[0-9]{2}[0-9]{2}[0-9]{2}[0-9]{2}(.(C|Z|gz|z))?$".toList
      "log.202701150700.gz".toList = some true ∧
    ls_match_RE "^log\\.[0-9]{4}[0-9]{2}[0-9]{2}[0-9]{2}[0-9]{2}(.(C|Z|gz|z))?$".toList
      "log.202701150700".toList = some true := by
  refine ⟨rfl, by decide, by decide, by decide⟩

/-- C17: for every limit `L` the duration used for a time unit is `L*3600`
for `'h'`, `L*86400` for `'d'`, `L*604800` for `'w'`, `L*2678400` (31 days)
for `'m'` and `L*31536000` (365 days) for `'y'`, taken modulo `2^64` as
`unsigned long` arithmetic does, and the time branch runs with that value. -/
theorem C17_time_units (L : Nat) (list : List lsent_t) (now : Int) :
    convert_limit L 'h' = .ok (Unit3.s, L * 3600 % 2 ^ 64) ∧
    convert_limit L 'd' = .ok (Unit3.s, L * 86400 % 2 ^ 64) ∧
    convert_limit L 'w' = .ok (Unit3.s, L * 604800 % 2 ^ 64) ∧
    convert_limit L 'm' = .ok (Unit3.s, L * 2678400 % 2 ^ 64) ∧
    convert_limit L 'y' = .ok (Unit3.s, L * 31536000 % 2 ^ 64) ∧
    remove_old_files list L 'h' now = .ok (remove_by_age list (L * 3600 % 2 ^ 64) now) ∧
    remove_old_files list L 'd' now = .ok (remove_by_age list (L * 86400 % 2 ^ 64) now) ∧
    remove_old_files list L 'w' now = .ok (remove_by_age list (L * 604800 % 2 ^ 64) now) ∧
    remove_old_files list L 'm' now = .ok (remove_by_age list (L * 2678400 % 2 ^ 64) now) ∧
    remove_old_files list L 'y' now = .ok (remove_by_age list (L * 31536000 % 2 ^ 64) now) ∧
    2678400 = 31 * 86400 ∧ 31536000 = 365 * 86400 := by
  refine ⟨rfl, rfl, rfl, rfl, rfl, rfl, rfl, rfl, rfl, rfl, rfl, rfl⟩

/-- C19 (the code departs from the claim): `ls_sort_date` returns the
difference of two `time_t` values as an `int`.  For modification times
`-400000000` and `1800000000` the result is positive although the first entry
is the older one, and for times `2^32` seconds apart the result is zero. -/
theorem C19_sort_date_truncates :
    ls_sort_date ⟨"log.1957", -400000000, 8⟩ ⟨"log.2027", 1800000000, 8⟩ = 2094967296 ∧
    ls_sort_date ⟨"log.1970", 0, 8⟩ ⟨"log.2106", 4294967296, 8⟩ = 0 ∧
    ls_sort_date ⟨"log.2027", 1800000000, 8⟩ ⟨"log.2027b", 1800003600, 8⟩ = -3600 := by
  decide

/-- C20 (the code departs from the claim): `ls_sort_size` returns the
difference of two `off_t` values as an `int`.  For sizes 0 and 3 GiB the
result is positive although the first file is the smaller one, and for sizes
4 GiB apart the result is zero. -/
theorem C20_sort_size_truncates :
    ls_sort_size 0 (3 * 2 ^ 30) = 1073741824 ∧
    ls_sort_size (3 * 2 ^ 30) 0 = -1073741824 ∧
    ls_sort_size (4 * 2 ^ 30) 0 = 0 ∧
    ls_sort_size 5 7 = -2 := by
  decide


/-! ## Claims on rejected formats and literal characters -/

theorem mtl_loop_contains_bad (strftime : Char → tm → Nat) (mode : Nat) (nRE : Int)
    (bd bl : Char → Bool)
    (hd : ∀ d st, bd d = true → mtl_directive strftime mode nRE d st = none)
    (hl : ∀ c st, c ≠ '%' → bl c = true → mtl_literal mode nRE c st = none) :
    ∀ (k : Nat) (fmt : List Char) (st : MtlState), fmt.length ≤ k →
      contains_bad bd bl fmt = true → (mtl_loop strftime mode nRE fmt st).1 = -1 := by
  intro k
  induction k with
  | zero =>
    intro fmt st hlen hbad
    have : fmt = [] := List.length_eq_zero.mp (by omega)
    subst this
    simp [contains_bad] at hbad
  | succ k ih =>
    intro fmt st hlen hbad
    cases fmt with
    | nil => simp [contains_bad] at hbad
    | cons c rest =>
      by_cases hc : c = '%'
      · subst hc
        cases rest with
        | nil => simp [mtl_loop]
        | cons d rest1 =>
          simp only [contains_bad, if_true, Bool.or_eq_true] at hbad
          simp only [mtl_loop, if_true]
          cases hdir : mtl_directive strftime mode nRE d st with
          | none => rfl
          | some st1 =>
            rcases hbad with hb | hb
            · rw [hd d st hb] at hdir
              exact absurd hdir (by simp)
            · exact ih rest1 st1 (by change rest1.length + 1 + 1 ≤ k + 1 at hlen; omega) hb
      · rw [contains_bad.eq_def] at hbad
        simp only [if_neg hc, Bool.or_eq_true] at hbad
        rw [mtl_loop.eq_def]
        simp only [if_neg hc]
        cases hlit : mtl_literal mode nRE c st with
        | none => rfl
        | some st1 =>
          rcases hbad with hb | hb
          · rw [hl c st hc hb] at hlit
            exact absurd hlit (by simp)
          · exact ih rest st1 (by change rest.length + 1 ≤ k + 1 at hlen; omega) hb

theorem mtl_directive_unsupported (strftime : Char → tm → Nat) (mode : Nat) (nRE : Int)
    (d : Char) (st : MtlState) (h : (!(SUPPORTED.contains d)) = true) :
    mtl_directive strftime mode nRE d st = none := by
  simp only [SUPPORTED, List.contains_eq_any_beq, List.any_cons, List.any_nil, Bool.or_false,
    Bool.not_eq_true', Bool.or_eq_false_iff, beq_eq_false_iff_ne, ne_eq] at h
  obtain ⟨h1, h2, h3, h4, h5, h6, h7, h8, h9, h10, h11, h12, h13, h14, h15, h16, h17, h18,
    h19, h20, h21, h22, h23, h24, h25, h26, h27, h28, h29, h30, h31, h32, h33, h34, h35, h36,
    h37, h38, h39, h40, h41, h42⟩ := h
  simp [mtl_directive, h1, h2, h3, h4, h5, h6, h7, h8, h9, h10, h11, h12, h13, h14, h15, h16,
    h17, h18, h19, h20, h21, h22, h23, h24, h25, h26, h27, h28, h29, h30, h31, h32, h33, h34,
    h35, h36, h37, h38, h39, h40, h41, h42]

theorem has_unsupported_ne_nil (fmt : List Char) (h : has_unsupported_directive fmt = true) :
    fmt ≠ [] := by
  intro hnil
  subst hnil
  simp [has_unsupported_directive, contains_bad] at h

/-- C15: for every mode, buffer and buffer size, a format that holds an
unsupported directive (`%E`, `%O`, a `%` before any character outside the
supported set, or a `%` as the last character, where the terminating null is
the character read) makes `max_time_length` return `-1`; the format checks of
`datecycle` and `remove_old_files` then set `ERROR_BADFMT`. -/
theorem C15_unsupported_directive (strftime : Char → tm → Nat) (t0 : tm) (fmt : List Char)
    (mode : Nat) (sRE : Option (List Char)) (nRE : Int) (sPathBase : List Char)
    (expand : Int → Int) (h : has_unsupported_directive fmt = true) :
    (max_time_length strftime t0 fmt mode sRE nRE).1 = -1 ∧
    datecycle_format_rc strftime t0 fmt expand = ERROR_BADFMT ∧
    remove_old_files_format_rc strftime t0 sPathBase fmt = ERROR_BADFMT ∧
    has_unsupported_directive "%E".toList = true ∧
    has_unsupported_directive "%Y%O".toList = true ∧
    has_unsupported_directive "%Y%f".toList = true ∧
    has_unsupported_directive "%Y%".toList = true ∧
    has_unsupported_directive "%%E%Y".toList = false := by
  have key : ∀ mode sRE nRE, (max_time_length strftime t0 fmt mode sRE nRE).1 = -1 := by
    intro mode sRE nRE
    unfold max_time_length
    exact mtl_loop_contains_bad strftime mode nRE _ _
      (fun d st hd => mtl_directive_unsupported strftime mode nRE d st hd)
      (fun c st _ hl => absurd hl (by simp)) fmt.length fmt _ (Nat.le_refl _) h
  have hne := has_unsupported_ne_nil fmt h
  refine ⟨key mode sRE nRE, ?_, ?_, by decide, by decide, by decide, by decide, by decide⟩
  · unfold datecycle_format_rc
    simp only [if_neg hne, key]
    rfl
  · unfold remove_old_files_format_rc aged_spec
    simp only [if_neg hne, key]
    rfl

/-- Witness of C15: the format `%Y%E`. -/
theorem C15_unsupported_directive_witness :
    (max_time_length (fun _ _ => 0) ⟨0, 0, 7, 15, 0, 127, 5, 14, 0⟩ "%Y%E".toList
      (MTL_FILENAME ||| MTL_REGEXP) (some []) 100).1 = -1 :=
  (C15_unsupported_directive (fun _ _ => 0) ⟨0, 0, 7, 15, 0, 127, 5, 14, 0⟩ "%Y%E".toList
    (MTL_FILENAME ||| MTL_REGEXP) (some []) 100 "log".toList (fun _ => 0) (by decide)).1

theorem mtl_directive_path_breaker (strftime : Char → tm → Nat) (mode : Nat) (nRE : Int)
    (d : Char) (st : MtlState) (hmode : mode &&& MTL_FILENAME ≠ 0)
    (h : (d = 'n' || d = 't' || d = 'D') = true) :
    mtl_directive strftime mode nRE d st = none := by
  simp only [Bool.or_eq_true, decide_eq_true_eq] at h
  rcases h with (rfl | rfl) | rfl <;> simp [mtl_directive, hmode]

theorem mtl_literal_path_breaker (mode : Nat) (nRE : Int) (c : Char) (st : MtlState)
    (hmode : mode &&& MTL_FILENAME ≠ 0)
    (h : (decide (c.toNat < ' '.toNat) || decide (c.toNat > '~'.toNat) ||
      "<>|".toList.contains c) = true) :
    mtl_literal mode nRE c st = none := by
  have hcond : c.toNat < ' '.toNat ∨ c.toNat > '~'.toNat ∨ c ∈ "<>|".toList := by
    simp only [Bool.or_eq_true, decide_eq_true_eq] at h
    rcases h with (h | h) | h
    · exact Or.inl h
    · exact Or.inr (Or.inl h)
    · exact Or.inr (Or.inr (List.elem_iff.mp h))
  unfold mtl_literal
  rw [if_pos ⟨hmode, hcond⟩]

/-- C16: with `MTL_FILENAME` set, in suffix mode as in regexp mode,
`max_time_length` returns `-1` for every format that holds the directive
`%n`, `%t` or `%D`, or a literal character below `' '`, above `'~'`, or one of
`<`, `>`, `|`. -/
theorem C16_path_breaking_format (strftime : Char → tm → Nat) (t0 : tm) (fmt : List Char)
    (mode : Nat) (sRE : Option (List Char)) (nRE : Int)
    (hmode : mode &&& MTL_FILENAME ≠ 0) (h : has_path_breaker fmt = true) :
    (max_time_length strftime t0 fmt mode sRE nRE).1 = -1 ∧
    (MTL_FILENAME ||| MTL_SUFFIX) &&& MTL_FILENAME ≠ 0 ∧
    (MTL_FILENAME ||| MTL_REGEXP) &&& MTL_FILENAME ≠ 0 ∧
    has_path_breaker "%Y%n".toList = true ∧
    has_path_breaker "%t%Y".toList = true ∧
    has_path_breaker "%D".toList = true ∧
    has_path_breaker ['.', Char.ofNat 31] = true ∧
    has_path_breaker ['.', Char.ofNat 127] = true ∧
    has_path_breaker "a<b".toList = true ∧
    has_path_breaker "a>b".toList = true ∧
    has_path_breaker "a|b".toList = true := by
  refine ⟨?_, by decide, by decide, by decide, by decide, by decide, by decide, by decide,
    by decide, by decide, by decide⟩
  unfold max_time_length
  exact mtl_loop_contains_bad strftime mode nRE _ _
    (fun d st hd => mtl_directive_path_breaker strftime mode nRE d st hmode hd)
    (fun c st _ hl => mtl_literal_path_breaker mode nRE c st hmode hl)
    fmt.length fmt _ (Nat.le_refl _) h

/-- Witness of C16: the format `.%D` in suffix mode with `MTL_FILENAME`. -/
theorem C16_path_breaking_format_witness :
    (max_time_length (fun _ _ => 0) ⟨0, 0, 7, 15, 0, 127, 5, 14, 0⟩ ".%D".toList
      (MTL_FILENAME ||| MTL_SUFFIX) none 0).1 = -1 :=
  (C16_path_breaking_format (fun _ _ => 0) ⟨0, 0, 7, 15, 0, 127, 5, 14, 0⟩ ".%D".toList
    (MTL_FILENAME ||| MTL_SUFFIX) none 0 (by decide) (by decide)).1

theorem RE_TOKENS_eq : RE_TOKENS = METACHARACTERS := by decide

theorem escaped_length (c : Char) :
    (escaped c).length = if c ∈ METACHARACTERS then 2 else 1 := by
  unfold escaped
  by_cases h : c ∈ METACHARACTERS
  · rw [if_pos h, if_pos h]; rfl
  · rw [if_neg h, if_neg h]; rfl

theorem mtl_literal_regexp (mode : Nat) (nRE : Int) (c : Char) (st : MtlState)
    (buf : List Char)
    (hacc : ¬ (mode &&& MTL_FILENAME ≠ 0 ∧
      (c.toNat < ' '.toNat ∨ c.toNat > '~'.toNat ∨ c ∈ "<>|".toList)))
    (hmode : mode &&& MTL_REGEXP ≠ 0) (hb : st.sRE = some buf)
    (hfit : st.n + ((escaped c).length : Int) < nRE) :
    mtl_literal mode nRE c st =
      some { st with n := st.n + ((escaped c).length : Int),
                     sRE := some (buf.take st.n.toNat ++ escaped c) } := by
  unfold mtl_literal
  rw [if_neg hacc, if_pos hmode, RE_TOKENS_eq]
  simp only
  unfold put_field
  rw [hb]
  simp only
  unfold escaped at hfit ⊢
  rw [if_pos hfit]

theorem mtl_literal_sizing (mode : Nat) (nRE : Int) (c : Char) (st : MtlState)
    (hacc : ¬ (mode &&& MTL_FILENAME ≠ 0 ∧
      (c.toNat < ' '.toNat ∨ c.toNat > '~'.toNat ∨ c ∈ "<>|".toList)))
    (hmode : mode &&& MTL_REGEXP ≠ 0) (hb : st.sRE = none) :
    mtl_literal mode nRE c st =
      some { st with n := st.n + ((escaped c).length : Int), sRE := none } := by
  unfold mtl_literal
  rw [if_neg hacc, if_pos hmode, RE_TOKENS_eq]
  simp only
  unfold put_field
  rw [hb]
  rfl

theorem mtl_literal_suffix (mode : Nat) (nRE : Int) (c : Char) (st : MtlState)
    (hacc : ¬ (mode &&& MTL_FILENAME ≠ 0 ∧
      (c.toNat < ' '.toNat ∨ c.toNat > '~'.toNat ∨ c ∈ "<>|".toList)))
    (hmode : ¬ mode &&& MTL_REGEXP ≠ 0) :
    mtl_literal mode nRE c st = some { st with n := st.n + 1 } := by
  unfold mtl_literal
  rw [if_neg hacc, if_neg hmode]

theorem mtl_loop_literal (strftime : Char → tm → Nat) (mode : Nat) (nRE : Int) (c : Char)
    (rest : List Char) (st st1 : MtlState) (hc : c ≠ '%')
    (h : mtl_literal mode nRE c st = some st1) :
    mtl_loop strftime mode nRE (c :: rest) st = mtl_loop strftime mode nRE rest st1 := by
  rw [mtl_loop.eq_def]
  simp only [if_neg hc, h]

/-- C14: a literal character `c` of the format that is accepted (not `%`, and
with `MTL_FILENAME` neither outside `' '` to `'~'` nor one of `<`, `>`, `|`) is
emitted in regexp mode as `c`, after a backslash exactly when `c` is one of
`^ . [ $ ( ) | * + ? { \`, and the total grows by 2 or by 1 accordingly; in
suffix mode the total grows by 1.  The loop then goes on with the rest of the
format. -/
theorem C14_literal_characters (strftime : Char → tm → Nat) (mode : Nat) (nRE : Int)
    (c : Char) (rest : List Char) (st : MtlState) (buf : List Char) (hc : c ≠ '%')
    (hacc : ¬ (mode &&& MTL_FILENAME ≠ 0 ∧
      (c.toNat < ' '.toNat ∨ c.toNat > '~'.toNat ∨ c ∈ "<>|".toList))) :
    (mode &&& MTL_REGEXP ≠ 0 → st.sRE = some buf → st.n = (buf.length : Int) →
      st.n + ((escaped c).length : Int) < nRE →
      mtl_loop strftime mode nRE (c :: rest) st =
        mtl_loop strftime mode nRE rest
          { st with n := st.n + ((escaped c).length : Int), sRE := some (buf ++ escaped c) }) ∧
    (mode &&& MTL_REGEXP ≠ 0 → st.sRE = none →
      mtl_loop strftime mode nRE (c :: rest) st =
        mtl_loop strftime mode nRE rest
          { st with n := st.n + ((escaped c).length : Int), sRE := none }) ∧
    (¬ mode &&& MTL_REGEXP ≠ 0 →
      mtl_loop strftime mode nRE (c :: rest) st =
        mtl_loop strftime mode nRE rest { st with n := st.n + 1 }) ∧
    (escaped c = if c ∈ ['^', '.', '[', '$', '(', ')', '|', '*', '+', '?', '{', '\\']
      then ['\\', c] else [c]) ∧
    ((escaped c).length = if c ∈ METACHARACTERS then 2 else 1) := by
  refine ⟨?_, ?_, ?_, rfl, escaped_length c⟩
  · intro hmode hb hlen hfit
    have h := mtl_literal_regexp mode nRE c st buf hacc hmode hb hfit
    have htake : List.take st.n.toNat buf = buf := by
      rw [hlen, Int.toNat_ofNat]
      exact List.take_length _
    rw [htake] at h
    exact mtl_loop_literal strftime mode nRE c rest st _ hc h
  · intro hmode hb
    exact mtl_loop_literal strftime mode nRE c rest st _ hc
      (mtl_literal_sizing mode nRE c st hacc hmode hb)
  · intro hmode
    exact mtl_loop_literal strftime mode nRE c rest st _ hc
      (mtl_literal_suffix mode nRE c st hacc hmode)

/-- Witness of C14: the literal `.` followed by `log` in regexp mode. -/
theorem C14_literal_characters_witness :
    max_time_length (fun _ _ => 0) ⟨0, 0, 7, 15, 0, 127, 5, 14, 0⟩ ".log".toList
        (MTL_FILENAME ||| MTL_REGEXP) (some []) 6 =
      (5, some ['\\', '.', 'l', 'o', 'g']) :=
  (C14_literal_characters (fun _ _ => 0) (MTL_FILENAME ||| MTL_REGEXP) 6 '.' "log".toList
    { t := ⟨0, 0, 7, 15, 0, 127, 5, 14, 0⟩, n := 0, sRE := some [] } [] (by decide)
    (by decide)).1 (by decide) rfl rfl (by decide)

/-! ## Claims on `ls_class` -/

theorem ls_count_eq (select : lsent_t → Bool) (l : List dirmember) :
    ∀ n, ls_count select l n = n + (l.filterMap (ls_selected select)).length := by
  induction l with
  | nil => intro n; rfl
  | cons m rest ih =>
    intro n
    unfold ls_count
    cases h : ls_selected select m with
    | none =>
      simp only [List.filterMap_cons, h]
      exact ih n
    | some e =>
      simp only [List.filterMap_cons, h, List.length_cons]
      rw [ih (n + 1)]
      omega

theorem ls_fill_eq (select : lsent_t → Bool) (ent_count : Nat) (l : List dirmember) :
    ∀ pent : List lsent_t,
      pent.length + (l.filterMap (ls_selected select)).length ≤ ent_count →
      ls_fill select ent_count l pent = pent ++ l.filterMap (ls_selected select) := by
  induction l with
  | nil => intro pent _; simp [ls_fill]
  | cons m rest ih =>
    intro pent hle
    unfold ls_fill
    cases h : ls_selected select m with
    | none =>
      simp only [List.filterMap_cons, h] at hle ⊢
      by_cases hlt : pent.length < ent_count
      · rw [if_pos hlt]
        exact ih pent hle
      · rw [if_neg hlt]
        have : (List.filterMap (ls_selected select) rest).length = 0 := by omega
        rw [List.length_eq_zero.mp this, List.append_nil]
    | some e =>
      simp only [List.filterMap_cons, h, List.length_cons] at hle ⊢
      rw [if_pos (by omega)]
      rw [ih (pent ++ [e]) (by simp only [List.length_append, List.length_singleton]; omega)]
      simp only [List.append_assoc, List.singleton_append]

theorem ls_selected_name (select : lsent_t → Bool) (m : dirmember) (e : lsent_t)
    (h : ls_selected select m = some e) :
    m.d_name ≠ "." ∧ m.d_name ≠ ".." ∧ e.filename = m.d_name ∧
      m.st = some (e.st_mtime, e.st_blocks) ∧ select e = true := by
  unfold ls_selected at h
  by_cases hn : m.d_name ≠ "." ∧ m.d_name ≠ ".."
  · rw [if_pos hn] at h
    cases hst : m.st with
    | none => rw [hst] at h; exact absurd h (by simp)
    | some p =>
      obtain ⟨mt, bl⟩ := p
      rw [hst] at h
      simp only at h
      by_cases hs : select ⟨m.d_name, mt, bl⟩ = true
      · rw [if_pos hs] at h
        have he : e = ⟨m.d_name, mt, bl⟩ := (Option.some.inj h).symm
        subst he
        exact ⟨hn.1, hn.2, rfl, rfl, hs⟩
      · rw [if_neg hs] at h
        exact absurd h (by simp)
  · rw [if_neg hn] at h
    exact absurd h (by simp)

/-- C18: when both scans enumerate the same members, `ls_create` without a
comparator returns, in enumeration order, exactly one entry for each member
that is not `.` or `..`, whose `stat` succeeds and which `select` accepts
(every such member when `select` is `NULL`); a member whose `stat` fails is
left out and the result is not `NULL`; no entry is named `.` or `..`. -/
theorem C18_ls_create_scan (listing : List dirmember) (select : Option (lsent_t → Bool))
    (qsort : (lsent_t → lsent_t → Int) → List lsent_t → List lsent_t) :
    ls_create (some (listing, listing)) select none qsort =
      some (listing.filterMap (fun m =>
        match m.st with
        | some (mtime, blocks) =>
          if m.d_name ≠ "." ∧ m.d_name ≠ ".." ∧
              (match select with
               | some f => f ⟨m.d_name, mtime, blocks⟩
               | none => true) = true
          then some ⟨m.d_name, mtime, blocks⟩ else none
        | none => none)) ∧
    (∀ pent, ls_create (some (listing, listing)) select none qsort = some pent →
      ∀ e ∈ pent, e.filename ≠ "." ∧ e.filename ≠ ".." ∧
        ∃ m ∈ listing, m.d_name = e.filename ∧ m.st = some (e.st_mtime, e.st_blocks)) ∧
    ls_create (some ([⟨".", some (1, 8)⟩, ⟨"..", some (1, 8)⟩, ⟨"a", some (2, 8)⟩,
        ⟨"gone", none⟩, ⟨"b", some (3, 16)⟩],
      [⟨".", some (1, 8)⟩, ⟨"..", some (1, 8)⟩, ⟨"a", some (2, 8)⟩,
        ⟨"gone", none⟩, ⟨"b", some (3, 16)⟩])) none none qsort =
      some [⟨"a", 2, 8⟩, ⟨"b", 3, 16⟩] := by
  have hrun : ∀ sel : lsent_t → Bool,
      ls_fill sel (ls_count sel listing 0) listing [] =
        listing.filterMap (ls_selected sel) := by
    intro sel
    rw [ls_fill_eq sel _ listing [] (by rw [ls_count_eq]; simp)]
    rfl
  have hcreate : ls_create (some (listing, listing)) select none qsort =
      some (listing.filterMap (ls_selected (match select with
        | some f => f
        | none => _select_all))) := by
    unfold ls_create
    simp only [hrun]
  refine ⟨?_, ?_, rfl⟩
  · rw [hcreate]
    congr 1
    apply List.filterMap_congr
    intro m _
    unfold ls_selected
    cases hst : m.st with
    | none => simp
    | some p =>
      obtain ⟨mt, bl⟩ := p
      cases select with
      | none => simp [_select_all]
      | some f =>
        by_cases hn : m.d_name ≠ "." ∧ m.d_name ≠ ".."
        · by_cases hf : f ⟨m.d_name, mt, bl⟩ = true
          · simp [hn, hf]
          · simp [hn, hf]
        · have hn2 : ¬ (m.d_name ≠ "." ∧ m.d_name ≠ ".." ∧ f ⟨m.d_name, mt, bl⟩ = true) :=
            fun h => hn ⟨h.1, h.2.1⟩
          simp only [if_neg hn, if_neg hn2]
  · intro pent hp e he
    rw [hcreate] at hp
    have hp2 := Option.some.inj hp
    rw [← hp2] at he
    obtain ⟨m, hm, hsel⟩ := List.mem_filterMap.mp he
    obtain ⟨h1, h2, h3, h4, _⟩ := ls_selected_name _ m e hsel
    exact ⟨by rw [h3]; exact h1, by rw [h3]; exact h2, m, hm, h3.symm, h4⟩


/-! ## Claims on `ls_reorder`, `main` and the user id -/

/-- C22 (the code departs from the claim): `ls_reorder` leaves a snapshot of
fewer than two entries as it is, whatever the comparator; with two or more
entries and a null comparator it calls `qsort` with the null pointer, where
`ls_create` tests `if (compar)` first. -/
theorem C22_reorder_null_comparator
    (qsort : (lsent_t → lsent_t → Int) → List lsent_t → List lsent_t) :
    (∀ (pent : List lsent_t) (compar : Option (lsent_t → lsent_t → Int)),
      pent.length < 2 → ls_reorder pent compar qsort = some pent) ∧
    (∀ (e1 e2 : lsent_t) (rest : List lsent_t),
      ls_reorder (e1 :: e2 :: rest) none qsort = none) ∧
    ls_reorder [⟨"a", 1, 8⟩, ⟨"b", 2, 8⟩] none qsort = none ∧
    ls_create (some ([⟨"a", some (1, 8)⟩, ⟨"b", some (2, 8)⟩],
      [⟨"a", some (1, 8)⟩, ⟨"b", some (2, 8)⟩])) none none qsort =
      some [⟨"a", 1, 8⟩, ⟨"b", 2, 8⟩] := by
  refine ⟨?_, ?_, ?_, rfl⟩
  · intro pent compar h
    unfold ls_reorder
    rw [if_neg (by omega)]
  · intro e1 e2 rest
    unfold ls_reorder
    rw [if_pos (by simp)]
  · unfold ls_reorder
    rw [if_pos (by simp)]

/-- C23 (the code departs from the claim): once the options and the names are
accepted, `main` ends with `return ERROR_NONE`: the exit status is 0 whatever
`datecycle` and `remove_old_files` return, and the last error is left in the
variable `rc`.  With one path that is not found the status is 0 and `rc` is
`ERROR_NOPATH`. -/
theorem C23_exit_status_ignores_errors (opts : List (Char × Option String))
    (paths : List String) (getpwnam getgrnam : String → Bool)
    (datecycle_rc remove_rc : String → Nat) :
    (main opts paths getpwnam getgrnam datecycle_rc remove_rc).1 =
      (main opts [] getpwnam getgrnam (fun _ => ERROR_NONE) (fun _ => ERROR_NONE)).1 ∧
    (main [] paths getpwnam getgrnam datecycle_rc remove_rc).1 = ERROR_NONE ∧
    main [] ["/var/log/missing"] getpwnam getgrnam (fun _ => ERROR_NOPATH) remove_rc =
      (ERROR_NONE, ERROR_NOPATH) ∧
    main [] ["/var/log/messages"] getpwnam getgrnam (fun _ => ERROR_NONE)
      (fun _ => ERROR_BADFMT) = (ERROR_NONE, ERROR_BADFMT) := by
  refine ⟨?_, rfl, rfl, rfl⟩
  unfold main
  cases main_options opts default_options with
  | error status => rfl
  | ok o =>
    simp only
    by_cases h1 : unknown_name o.opt_uname getpwnam = true
    · simp only [h1, if_true]
    · by_cases h2 : unknown_name o.opt_gname getgrnam = true
      · simp only [h1, h2, if_true, if_false]
      · simp only [h1, h2]
        rfl

/-- C24 (the code departs from the claim): case `'z'` has no `break`; after
`opt_flags|=DC_ZERO` it runs on into `default`, which reports an unrecognized
option and returns `ERROR_CMDLINE`.  Every command line with `-z` ends there,
before any path is processed. -/
theorem C24_option_z_rejected (o : Options) (optarg : Option String)
    (rest : List (Char × Option String)) (paths : List String)
    (getpwnam getgrnam : String → Bool) (datecycle_rc remove_rc : String → Nat) :
    main_option o 'z' optarg = .error ERROR_CMDLINE ∧
    main (('z', optarg) :: rest) paths getpwnam getgrnam datecycle_rc remove_rc =
      (ERROR_CMDLINE, ERROR_NONE) ∧
    main (('v', none) :: ('z', optarg) :: rest) paths getpwnam getgrnam datecycle_rc
      remove_rc = (ERROR_CMDLINE, ERROR_NONE) ∧
    ERROR_CMDLINE = 10 := by
  exact ⟨rfl, rfl, rfl, rfl⟩

/-- C28 (the code departs from the claim): case `'n'` has no `break` and runs
on into `opt_olddir=optarg`, and case `'T'` runs on into `opt_uname=optarg`.
After `-o /archive -n`, with `optarg` null as the C library leaves it for an
option without argument, the old directory is null again; after `-u bob -T`
the user is null. -/
theorem C28_flag_options_fall_through (o : Options) (optarg : Option String) :
    main_option o 'n' optarg =
      .ok { o with opt_flags := o.opt_flags ||| (DC_FAKE ||| DC_VERBOSE),
                   opt_olddir := optarg } ∧
    main_option o 'T' optarg =
      .ok { o with opt_flags := o.opt_flags ||| DC_CURTIME, opt_uname := optarg } ∧
    main_options [('o', some "/archive")] default_options =
      .ok { default_options with opt_olddir := some "/archive" } ∧
    main_options [('o', some "/archive"), ('n', none)] default_options =
      .ok { default_options with opt_flags := DC_FAKE ||| DC_VERBOSE, opt_olddir := none } ∧
    main_options [('u', some "bob")] default_options =
      .ok { default_options with opt_uname := some "bob" } ∧
    main_options [('u', some "bob"), ('T', none)] default_options =
      .ok { default_options with opt_flags := DC_CURTIME, opt_uname := none } := by
  exact ⟨rfl, rfl, rfl, rfl, rfl, rfl⟩

/-- C29 (the code departs from the claim): the user branch of `datecycle`
tests the first character against `"012345678"`, without `9`.  The user
`9000`, which `main` accepts as numeric without a lookup, is looked up with
`getpwnam` and gives `ERROR_UIDGID` when no such name exists; the group `9000`
and the user `8000` are taken as numbers. -/
theorem C29_user_id_starting_with_nine (getpwnam getgrnam : String → Option Int)
    (lookup : String → Bool) :
    unknown_name (some "9000") lookup = false ∧
    (datecycle_ids (some "9000") none getpwnam getgrnam).pw_lookups = ["9000"] ∧
    datecycle_ids (some "9000") none (fun _ => none) getgrnam =
      { rc := ERROR_UIDGID, nUid := -1, nGid := -1, pw_lookups := ["9000"],
        gr_lookups := [] } ∧
    datecycle_ids none (some "9000") getpwnam getgrnam =
      { rc := ERROR_NONE, nUid := -1, nGid := 9000, pw_lookups := [], gr_lookups := [] } ∧
    datecycle_ids (some "8000") none getpwnam getgrnam =
      { rc := ERROR_NONE, nUid := 8000, nGid := -1, pw_lookups := [], gr_lookups := [] } := by
  refine ⟨rfl, ?_, rfl, rfl, rfl⟩
  unfold datecycle_ids
  cases h : getpwnam "9000" <;> simp [h]

/-- C25 (the code departs from the claim): for `%u` and `%w` the fragment is
`[0=9]`, a class of the three characters `0`, `=` and `9`; it matches none of
the digits `1` to `7` (nor `8`), though it matches `0`.  The width in suffix
mode is 1. -/
theorem C25_weekday_number_class (strftime : Char → tm → Nat) (t0 : tm) (buf : List Char) :
    max_time_length strftime t0 "%u".toList (MTL_FILENAME ||| MTL_REGEXP) (some buf) 6 =
      (5, some "[0=9]".toList) ∧
    max_time_length strftime t0 "%w".toList (MTL_FILENAME ||| MTL_REGEXP) (some buf) 6 =
      (5, some "[0=9]".toList) ∧
    max_time_length strftime t0 "%u".toList (MTL_FILENAME ||| MTL_SUFFIX) none 0 = (1, none) ∧
    max_time_length strftime t0 "%w".toList (MTL_FILENAME ||| MTL_SUFFIX) none 0 = (1, none) ∧
    (∀ c ∈ "12345678".toList, ls_match_RE "^[0=9]$".toList [c] = some false) ∧
    ls_match_RE "^[0=9]$".toList "0".toList = some true ∧
    ls_match_RE "^[0=9]$".toList "=".toList = some true ∧
    (∀ c ∈ "01234567".toList, ls_match_RE "^[0-9]$".toList [c] = some true) := by
  refine ⟨rfl, rfl, rfl, rfl, by decide, by decide, by decide, by decide⟩

/-- C27 (the code departs from the claim): with `MTL_FILENAME` the literal
test rejects characters below `' '`, above `'~'` and `<`, `>`, `|`, but not
`/`.  The format `/%Y` is accepted, with width 5 and pattern `/[0-9]{4}`, and
`datecycle` goes on to compose a name with a `/` in the suffix; `%x`, the
date of the locale, is accepted as well. -/
theorem C27_slash_accepted (strftime : Char → tm → Nat) (t0 : tm) (buf : List Char) :
    max_time_length strftime t0 "/%Y".toList (MTL_FILENAME ||| MTL_SUFFIX) none 0 =
      (5, none) ∧
    max_time_length strftime t0 "/%Y".toList (MTL_FILENAME ||| MTL_REGEXP) (some buf) 10 =
      (9, some "/[0-9]{4}".toList) ∧
    datecycle_format_rc strftime t0 "/%Y".toList (fun _ => 5) = ERROR_NONE ∧
    has_path_breaker "/%Y".toList = false ∧
    max_time_length strftime t0 "%x".toList (MTL_FILENAME ||| MTL_SUFFIX) none 0 =
      (((strftime 'x' t0 : Nat) : Int), none) ∧
    max_time_length strftime t0 "%D".toList (MTL_FILENAME ||| MTL_SUFFIX) none 0 =
      (-1, none) := by
  refine ⟨rfl, rfl, rfl, by decide, ?_, rfl⟩
  simp [max_time_length, mtl_loop, mtl_directive, probed_case, MTL_FILENAME, MTL_SUFFIX,
    MTL_REGEXP]

theorem diff_to_int_small (x y : Int) (h1 : -(2 ^ 31) ≤ x - y) (h2 : x - y < 2 ^ 31) :
    diff_to_int x y = x - y := by
  unfold diff_to_int toInt32 toULong ULONG_MOD
  push_cast
  split_ifs <;> omega

theorem ls_sort_date_le_iff (a b : lsent_t)
    (h : -(2 ^ 31) ≤ a.st_mtime - b.st_mtime ∧ a.st_mtime - b.st_mtime < 2 ^ 31) :
    ls_sort_date a b ≤ 0 ↔ a.st_mtime ≤ b.st_mtime := by
  unfold ls_sort_date
  rw [diff_to_int_small _ _ h.1 h.2]
  omega

theorem sorted_by_date_unique (list r1 r2 : List lsent_t)
    (hb : ∀ a ∈ list, ∀ b ∈ list,
      -(2 ^ 31) ≤ a.st_mtime - b.st_mtime ∧ a.st_mtime - b.st_mtime < 2 ^ 31)
    (hd : list.Pairwise (fun a b => a.st_mtime ≠ b.st_mtime))
    (p1 : r1.Perm list) (s1 : r1.Pairwise (fun a b => ls_sort_date a b ≤ 0))
    (p2 : r2.Perm list) (s2 : r2.Pairwise (fun a b => ls_sort_date a b ≤ 0)) :
    r1 = r2 ∧ r1.Pairwise (fun a b => a.st_mtime < b.st_mtime) := by
  have strict : ∀ r : List lsent_t, r.Perm list →
      r.Pairwise (fun a b => ls_sort_date a b ≤ 0) →
      r.Pairwise (fun a b => a.st_mtime < b.st_mtime) := by
    intro r p s
    have hne : r.Pairwise (fun a b => a.st_mtime ≠ b.st_mtime) :=
      (List.Perm.pairwise_iff (fun h => Ne.symm h) p).mpr hd
    refine List.Pairwise.imp_of_mem ?_ (List.Pairwise.and s hne)
    intro a b ha hbm hab
    have h := (ls_sort_date_le_iff a b (hb a (p.subset ha) b (p.subset hbm))).mp hab.1
    have hn := hab.2
    omega
  have q1 := strict r1 p1 s1
  have q2 := strict r2 p2 s2
  haveI : IsAntisymm lsent_t (fun a b => a.st_mtime < b.st_mtime) :=
    ⟨fun a b h1 h2 => absurd h1 (by omega)⟩
  exact ⟨List.eq_of_perm_of_sorted (p1.trans p2.symm) q1 q2, q1⟩

/-- C21 (as amended): for a snapshot whose modification times are pairwise
distinct and less than `2^31` seconds apart, and calls of `qsort` that return an
arrangement of the array ordered by the comparator, `ls_reorder` with
`ls_sort_alpha` followed by `ls_reorder` with `ls_sort_date` gives the same
order as `ls_reorder` with `ls_sort_date` alone: the arrangement of the same
entries by increasing modification time. -/
theorem C21_reorder_last_comparator (list : List lsent_t)
    (qsort : (lsent_t → lsent_t → Int) → List lsent_t → List lsent_t)
    (hb : ∀ a ∈ list, ∀ b ∈ list,
      -(2 ^ 31) ≤ a.st_mtime - b.st_mtime ∧ a.st_mtime - b.st_mtime < 2 ^ 31)
    (hd : list.Pairwise (fun a b => a.st_mtime ≠ b.st_mtime))
    (h1 : qsort_ok qsort ls_sort_alpha list)
    (h2 : qsort_ok qsort ls_sort_date (qsort ls_sort_alpha list))
    (h3 : qsort_ok qsort ls_sort_date list) :
    ∃ byName final,
      ls_reorder list (some ls_sort_alpha) qsort = some byName ∧
      ls_reorder byName (some ls_sort_date) qsort = some final ∧
      ls_reorder list (some ls_sort_date) qsort = some final ∧
      final.Perm list ∧ final.Pairwise (fun a b => a.st_mtime < b.st_mtime) := by
  by_cases hlen : list.length > 1
  · have hlen2 : (qsort ls_sort_alpha list).length > 1 := by
      rw [h1.1.length_eq]; exact hlen
    obtain ⟨heq, hsorted⟩ := sorted_by_date_unique list
      (qsort ls_sort_date (qsort ls_sort_alpha list)) (qsort ls_sort_date list) hb hd
      (h2.1.trans h1.1) h2.2 h3.1 h3.2
    refine ⟨qsort ls_sort_alpha list, qsort ls_sort_date (qsort ls_sort_alpha list),
      ?_, ?_, ?_, h2.1.trans h1.1, hsorted⟩
    · unfold ls_reorder
      rw [if_pos hlen]
    · unfold ls_reorder
      rw [if_pos hlen2]
    · unfold ls_reorder
      rw [if_pos hlen, heq]
  · have hsmall : list.Pairwise (fun a b => a.st_mtime < b.st_mtime) := by
      match list, hlen with
      | [], _ => exact List.Pairwise.nil
      | [a], _ => exact List.pairwise_singleton _ a
      | _ :: _ :: _, h => exact absurd (by simp) h
    refine ⟨list, list, ?_, ?_, ?_, List.Perm.refl _, hsmall⟩ <;>
    · unfold ls_reorder
      rw [if_neg hlen]

/-- Witness of C21: three entries with distinct times, sorted by insertion. -/
theorem C21_reorder_last_comparator_witness :
    ∃ byName final,
      ls_reorder [⟨"b", 200, 8⟩, ⟨"a", 100, 8⟩, ⟨"c", 150, 8⟩] (some ls_sort_alpha)
        qsort_by_insertion = some byName ∧
      ls_reorder byName (some ls_sort_date) qsort_by_insertion = some final ∧
      ls_reorder [⟨"b", 200, 8⟩, ⟨"a", 100, 8⟩, ⟨"c", 150, 8⟩] (some ls_sort_date)
        qsort_by_insertion = some final ∧
      final.Perm [⟨"b", 200, 8⟩, ⟨"a", 100, 8⟩, ⟨"c", 150, 8⟩] ∧
      final.Pairwise (fun a b => a.st_mtime < b.st_mtime) :=
  C21_reorder_last_comparator [⟨"b", 200, 8⟩, ⟨"a", 100, 8⟩, ⟨"c", 150, 8⟩]
    qsort_by_insertion (by decide) (by decide) (by unfold qsort_ok; decide)
    (by unfold qsort_ok; decide) (by unfold qsort_ok; decide)

/-- C21 (counterexample to the claim as stated): two entries with the same
modification time, `b` before `a`.  A `qsort` that keeps the order of equal
entries leaves `b, a` when sorting by date alone, and gives `a, b` when the
snapshot was sorted by name first; every call returned an ordered
arrangement of its input. -/
theorem C21_counterexample :
    ls_reorder [⟨"b", 100, 8⟩, ⟨"a", 100, 8⟩] (some ls_sort_date) qsort_by_insertion =
      some [⟨"b", 100, 8⟩, ⟨"a", 100, 8⟩] ∧
    ls_reorder [⟨"b", 100, 8⟩, ⟨"a", 100, 8⟩] (some ls_sort_alpha) qsort_by_insertion =
      some [⟨"a", 100, 8⟩, ⟨"b", 100, 8⟩] ∧
    ls_reorder [⟨"a", 100, 8⟩, ⟨"b", 100, 8⟩] (some ls_sort_date) qsort_by_insertion =
      some [⟨"a", 100, 8⟩, ⟨"b", 100, 8⟩] ∧
    qsort_ok qsort_by_insertion ls_sort_date [⟨"b", 100, 8⟩, ⟨"a", 100, 8⟩] ∧
    qsort_ok qsort_by_insertion ls_sort_alpha [⟨"b", 100, 8⟩, ⟨"a", 100, 8⟩] ∧
    qsort_ok qsort_by_insertion ls_sort_date [⟨"a", 100, 8⟩, ⟨"b", 100, 8⟩] := by
  refine ⟨by decide, by decide, by decide, ?_, ?_, ?_⟩ <;>
  · unfold qsort_ok
    decide

/-! ## Claims on `secdel` -/

theorem write_blocks_eq (buf : List Nat) :
    ∀ (n : Nat) (f : OpenFile), f.pos ≤ f.data.length →
      write_blocks buf n f =
        { data := f.data.take f.pos ++ (List.replicate n buf).flatten ++
            f.data.drop (f.pos + n * buf.length),
          pos := f.pos + n * buf.length } := by
  intro n
  induction n with
  | zero =>
    intro f _
    simp [write_blocks]
  | succ n ih =>
    intro f hpos
    have hA : (f.data.take f.pos).length = f.pos := by
      rw [List.length_take]; omega
    have hAB : (f.data.take f.pos ++ buf).length = f.pos + buf.length := by
      rw [List.length_append, hA]
    unfold write_blocks
    rw [ih (write f buf) (by
      unfold write
      simp only [List.length_append, hA]
      omega)]
    unfold write
    simp only
    have htake : List.take (f.pos + buf.length)
        (f.data.take f.pos ++ buf ++ f.data.drop (f.pos + buf.length)) =
        f.data.take f.pos ++ buf := List.take_left' hAB
    have hdrop : List.drop (f.pos + buf.length + n * buf.length)
        (f.data.take f.pos ++ buf ++ f.data.drop (f.pos + buf.length)) =
        f.data.drop (f.pos + (n + 1) * buf.length) := by
      rw [← hAB, List.drop_append, List.drop_drop]
      congr 1
      rw [Nat.succ_mul]
      omega
    rw [htake, hdrop]
    have hpos2 : f.pos + buf.length + n * buf.length = f.pos + (n + 1) * buf.length := by
      rw [Nat.succ_mul]; omega
    rw [hpos2]
    simp [List.replicate_succ, List.append_assoc]

theorem flatten_replicate_replicate (n m x : Nat) :
    (List.replicate n (List.replicate m x)).flatten = List.replicate (n * m) x := by
  induction n with
  | zero => simp
  | succ k ih =>
    rw [List.replicate_succ, List.flatten_cons, ih, Nat.succ_mul, Nat.add_comm (k * m) m,
      List.replicate_add]

theorem length_flatten_replicate (n : Nat) (b : List Nat) :
    (List.replicate n b).flatten.length = n * b.length := by
  induction n with
  | zero => simp
  | succ k ih =>
    rw [List.replicate_succ, List.flatten_cons, List.length_append, ih, Nat.succ_mul]
    omega

theorem three_passes (data b1 b2 b3 : List Nat) (n L : Nat) (h1 : b1.length = L)
    (h2 : b2.length = L) (h3 : b3.length = L) (hF : data.length ≤ n * L) :
    (write_blocks b3 n (write_blocks b2 n (write_blocks b1 n { data := data, pos := 0 }))).data
      = (List.replicate n b1).flatten ++ (List.replicate n b2).flatten ++
        (List.replicate n b3).flatten := by
  have l1 := length_flatten_replicate n b1
  have l2 := length_flatten_replicate n b2
  rw [h1] at l1
  rw [h2] at l2
  rw [write_blocks_eq b1 n { data := data, pos := 0 } (Nat.zero_le _)]
  simp only [List.take_zero, List.nil_append, Nat.zero_add, h1]
  rw [List.drop_eq_nil_of_le hF, List.append_nil]
  rw [write_blocks_eq b2 n _ (by simp only [l1]; exact Nat.le_refl _)]
  simp only [h2]
  rw [List.take_of_length_le (by rw [l1]), List.drop_eq_nil_of_le (by rw [l1]; omega),
    List.append_nil]
  rw [write_blocks_eq b3 n _ (by
    simp only [List.length_append, l1, l2]
    omega)]
  simp only [h3]
  rw [List.take_of_length_le (by simp only [List.length_append, l1, l2]; omega),
    List.drop_eq_nil_of_le (by simp only [List.length_append, l1, l2]; omega),
    List.append_nil]

/-- C30 (the code departs from the claim): the file offset is never moved back
between the passes.  The first pass writes `fsize` blocks of `0xaa` from
offset 0, which cover the file; the second pass writes its `0x55` bytes after
them and the third its random bytes after those.  Before the truncation every
byte of the original extent holds `0xaa`, having been written once. -/
theorem C30_passes_do_not_rewind (data : List Nat) (rand : Nat → Nat) :
    secdel data rand =
      List.replicate ((data.length / 256 + 1) * 256) 0xaa ++
      List.replicate ((data.length / 256 + 1) * 256) 0x55 ++
      (List.replicate (data.length / 256 + 1)
        ((List.range 256).map (fun j => rand j % 256))).flatten ∧
    data.length < (data.length / 256 + 1) * 256 ∧
    (∀ k, k < data.length → (secdel data rand)[k]? = some 0xaa) := by
  have hF : data.length < (data.length / 256 + 1) * 256 := by omega
  have key : secdel data rand =
      List.replicate ((data.length / 256 + 1) * 256) 0xaa ++
      List.replicate ((data.length / 256 + 1) * 256) 0x55 ++
      (List.replicate (data.length / 256 + 1)
        ((List.range 256).map (fun j => rand j % 256))).flatten := by
    unfold secdel
    have r3 : List.range 3 = [0, 1, 2] := by decide
    simp only [r3, List.foldl_cons, List.foldl_nil]
    have c0 : (0 : Nat) < 2 := by decide
    have c1 : (1 : Nat) < 2 := by decide
    have c2 : ¬ (2 : Nat) < 2 := by decide
    simp only [if_pos c0, if_pos c1, if_neg c2]
    have g0 : [170, 85].getD 0 0 = 170 := rfl
    have g1 : [170, 85].getD 1 0 = 85 := rfl
    rw [g0, g1]
    rw [three_passes data _ _ _ (data.length / 256 + 1) 256 (List.length_replicate _ _)
      (List.length_replicate _ _) (by rw [List.length_map, List.length_range])
      (Nat.le_of_lt hF)]
    rw [flatten_replicate_replicate, flatten_replicate_replicate]
  refine ⟨key, hF, ?_⟩
  intro k hk
  have hk2 : k < (List.replicate ((data.length / 256 + 1) * 256) 170).length := by
    rw [List.length_replicate]; omega
  rw [key, List.append_assoc, List.getElem?_append_left hk2, List.getElem?_replicate]
  rw [if_pos (by omega)]

/-! ## Claims on the sizing call and the filling call -/

theorem mtl_directive_regexp_field (strftime : Char → tm → Nat) (d : Char) :
    (∀ (nRE : Int) (st : MtlState),
      mtl_directive strftime (MTL_FILENAME ||| MTL_REGEXP) nRE d st =
        match regexp_field d with
        | none => none
        | some f => put_step f nRE st) ∧
    (∀ f, regexp_field d = some f → f ≠ []) := by
  by_cases hs : SUPPORTED.contains d = true
  · have hmem : d ∈ SUPPORTED := List.elem_iff.mp hs
    simp only [SUPPORTED, List.mem_cons, List.mem_singleton, List.not_mem_nil, or_false] at hmem
    rcases hmem with rfl | rfl | rfl | rfl | rfl | rfl | rfl | rfl | rfl | rfl | rfl | rfl |
      rfl | rfl | rfl | rfl | rfl | rfl | rfl | rfl | rfl | rfl | rfl | rfl | rfl | rfl | rfl |
      rfl | rfl | rfl | rfl | rfl | rfl | rfl | rfl | rfl | rfl | rfl | rfl | rfl | rfl | rfl <;>
    exact ⟨fun _ _ => rfl, by decide⟩
  · have hs2 : (!(SUPPORTED.contains d)) = true := by
      rw [Bool.not_eq_true] at hs
      rw [hs]
      rfl
    have hnone : regexp_field d = none := by
      unfold regexp_field
      rw [mtl_directive_unsupported _ _ _ d _ hs2]
    refine ⟨fun nRE st => ?_, fun f hf => ?_⟩
    · rw [hnone, mtl_directive_unsupported strftime _ nRE d st hs2]
    · rw [hnone] at hf
      exact absurd hf (by simp)

theorem isPut_directive (strftime : Char → tm → Nat) (d : Char) :
    IsPut (fun nRE st => mtl_directive strftime (MTL_FILENAME ||| MTL_REGEXP) nRE d st) := by
  obtain ⟨h1, h2⟩ := mtl_directive_regexp_field strftime d
  cases hf : regexp_field d with
  | none =>
    left
    intro nRE st
    simp only [h1, hf]
  | some f =>
    right
    refine ⟨f, h2 f hf, ?_⟩
    intro nRE st
    simp only [h1, hf]

theorem isPut_literal (c : Char) :
    IsPut (fun nRE st => mtl_literal (MTL_FILENAME ||| MTL_REGEXP) nRE c st) := by
  by_cases hbad : (MTL_FILENAME ||| MTL_REGEXP) &&& MTL_FILENAME ≠ 0 ∧
      (c.toNat < ' '.toNat ∨ c.toNat > '~'.toNat ∨ c ∈ "<>|".toList)
  · left
    intro nRE st
    simp only [mtl_literal, if_pos hbad]
  · right
    have hmode : (MTL_FILENAME ||| MTL_REGEXP) &&& MTL_REGEXP ≠ 0 := by decide
    refine ⟨if c ∈ RE_TOKENS then ['\\', c] else [c], ?_, ?_⟩
    · by_cases h : c ∈ RE_TOKENS
      · rw [if_pos h]; simp
      · rw [if_neg h]; simp
    · intro nRE st
      simp only [mtl_literal, if_neg hbad, if_pos hmode, put_step]

theorem loop_step (strftime : Char → tm → Nat) (c : Char) (rest0 : List Char) :
    ∃ (step : Int → MtlState → Option MtlState) (rest : List Char),
      IsPut step ∧ rest.length ≤ rest0.length ∧
      ∀ nRE st, mtl_loop strftime (MTL_FILENAME ||| MTL_REGEXP) nRE (c :: rest0) st =
        match step nRE st with
        | none => (-1, st.sRE)
        | some st1 => mtl_loop strftime (MTL_FILENAME ||| MTL_REGEXP) nRE rest st1 := by
  by_cases hc : c = '%'
  · subst hc
    cases rest0 with
    | nil =>
      refine ⟨fun _ _ => none, [], Or.inl (fun _ _ => rfl), Nat.le_refl _, ?_⟩
      intro nRE st
      simp [mtl_loop]
    | cons d rest1 =>
      refine ⟨_, rest1, isPut_directive strftime d, by simp, ?_⟩
      intro nRE st
      rw [mtl_loop.eq_def]
      simp only [if_true]
  · refine ⟨_, rest0, isPut_literal c, Nat.le_refl _, ?_⟩
    intro nRE st
    rw [mtl_loop.eq_def]
    simp only [if_neg hc]

theorem put_step_n (f : List Char) (nRE : Int) (st st1 : MtlState)
    (h : put_step f nRE st = some st1) : st1.n = st.n + (f.length : Int) := by
  unfold put_step at h
  cases hp : put_field f st.n st.sRE nRE with
  | none => rw [hp] at h; exact absurd h (by simp)
  | some buf =>
    rw [hp] at h
    have := Option.some.inj h
    rw [← this]

theorem put_step_null (f : List Char) (nRE : Int) (st : MtlState) (hb : st.sRE = none) :
    put_step f nRE st = some { st with n := st.n + (f.length : Int), sRE := none } := by
  unfold put_step put_field
  rw [hb]

theorem put_step_buffer (f : List Char) (nRE : Int) (st : MtlState) (b : List Char)
    (hb : st.sRE = some b) (hfit : st.n + (f.length : Int) < nRE) :
    put_step f nRE st =
      some { st with n := st.n + (f.length : Int),
                     sRE := some (b.take st.n.toNat ++ f) } := by
  unfold put_step put_field
  rw [hb]
  simp only
  rw [if_pos hfit]

theorem mtl_loop_mono (strftime : Char → tm → Nat) :
    ∀ (k : Nat) (fmt : List Char) (st : MtlState) (N : Int) (x : Option (List Char))
      (nRE : Int), fmt.length ≤ k →
      mtl_loop strftime (MTL_FILENAME ||| MTL_REGEXP) nRE fmt st = (N, x) → 0 ≤ N →
      st.n ≤ N := by
  intro k
  induction k with
  | zero =>
    intro fmt st N x nRE hlen hrun _
    have : fmt = [] := List.length_eq_zero.mp (by omega)
    subst this
    simp only [mtl_loop, Prod.mk.injEq] at hrun
    omega
  | succ k ih =>
    intro fmt st N x nRE hlen hrun hN
    cases fmt with
    | nil =>
      simp only [mtl_loop, Prod.mk.injEq] at hrun
      omega
    | cons c rest0 =>
      obtain ⟨step, rest, hput, hrest, hloop⟩ := loop_step strftime c rest0
      rw [hloop] at hrun
      have hk : rest.length ≤ k := by
        change rest0.length + 1 ≤ k + 1 at hlen
        omega
      cases hs : step nRE st with
      | none =>
        rw [hs] at hrun
        simp only [Prod.mk.injEq] at hrun
        omega
      | some st1 =>
        rw [hs] at hrun
        simp only at hrun
        have h1 := ih rest st1 N x nRE hk hrun hN
        rcases hput with hnone | ⟨f, _, hf⟩
        · rw [hnone] at hs
          exact absurd hs (by simp)
        · rw [hf] at hs
          have := put_step_n f nRE st st1 hs
          omega

theorem mtl_loop_fill (strftime : Char → tm → Nat) :
    ∀ (k : Nat) (fmt : List Char) (st st1 : MtlState) (b : List Char) (N : Int)
      (x : Option (List Char)) (nRE0 nRE : Int), fmt.length ≤ k →
      st.sRE = none → st1.sRE = some b → st1.n = st.n → 0 ≤ st.n →
      st.n.toNat ≤ b.length →
      mtl_loop strftime (MTL_FILENAME ||| MTL_REGEXP) nRE0 fmt st = (N, x) → 0 ≤ N →
      N < nRE →
      ∃ b1, mtl_loop strftime (MTL_FILENAME ||| MTL_REGEXP) nRE fmt st1 = (N, some b1) ∧
        (fmt ≠ [] → (b1.length : Int) = N) ∧ (fmt = [] → b1 = b) := by
  intro k
  induction k with
  | zero =>
    intro fmt st st1 b N x nRE0 nRE hlen _ hb1 hn _ _ hrun _ _
    have : fmt = [] := List.length_eq_zero.mp (by omega)
    subst this
    simp only [mtl_loop, Prod.mk.injEq] at hrun
    refine ⟨b, ?_, fun h => absurd rfl h, fun _ => rfl⟩
    simp only [mtl_loop, hb1, hn, hrun.1]
  | succ k ih =>
    intro fmt st st1 b N x nRE0 nRE hlen hb hb1 hn h0 hcap hrun hN hfit
    cases fmt with
    | nil =>
      simp only [mtl_loop, Prod.mk.injEq] at hrun
      refine ⟨b, ?_, fun h => absurd rfl h, fun _ => rfl⟩
      simp only [mtl_loop, hb1, hn, hrun.1]
    | cons c rest0 =>
      obtain ⟨step, rest, hput, hrest, hloop⟩ := loop_step strftime c rest0
      rw [hloop] at hrun
      have hk : rest.length ≤ k := by
        change rest0.length + 1 ≤ k + 1 at hlen
        omega
      rcases hput with hnone | ⟨f, hfne, hf⟩
      · rw [hnone] at hrun
        simp only [Prod.mk.injEq] at hrun
        omega
      · rw [hf, put_step_null f nRE0 st hb] at hrun
        simp only at hrun
        have hmono := mtl_loop_mono strftime k rest _ N x nRE0 hk hrun hN
        simp only at hmono
        have hflen : 0 < f.length := List.length_pos.mpr hfne
        have hstep : step nRE st1 =
            some { st1 with n := st1.n + (f.length : Int),
                            sRE := some (b.take st1.n.toNat ++ f) } := by
          rw [hf]
          exact put_step_buffer f nRE st1 b hb1 (by omega)
        have htake : (b.take st1.n.toNat).length = st.n.toNat := by
          rw [List.length_take, hn]
          omega
        obtain ⟨b2, hrun2, hlen2, hnil2⟩ := ih rest
          { st with n := st.n + (f.length : Int), sRE := none }
          { st1 with n := st1.n + (f.length : Int), sRE := some (b.take st1.n.toNat ++ f) }
          (b.take st1.n.toNat ++ f) N x nRE0 nRE hk rfl rfl
          (by simp only; rw [hn]) (by simp only; omega)
          (by
            simp only [List.length_append, htake]
            omega)
          hrun hN hfit
        refine ⟨b2, ?_, ?_, fun h => absurd h (by simp)⟩
        · rw [hloop, hstep]
          exact hrun2
        · intro _
          by_cases hr : rest = []
          · have hb2 := hnil2 hr
            subst hr
            simp only [mtl_loop, Prod.mk.injEq] at hrun
            rw [hb2, List.length_append, htake]
            push_cast
            omega
          · exact hlen2 hr

/-- C26: for a non-empty format, when the sizing call
`max_time_length(fmt,MTL_FILENAME|MTL_REGEXP,NULL,0)` returns `n ≥ 0`, the
filling call with a buffer of `n+1` bytes returns the same `n` and leaves in
the buffer a string of exactly `n` characters, which with its terminating
null fills the `n+1` bytes; `remove_old_files` then goes on without
`ERROR_BADFMT`. -/
theorem C26_two_pass_sizing (strftime : Char → tm → Nat) (t0 : tm) (fmt buf : List Char)
    (sPathBase : List Char) (hne : fmt ≠ [])
    (hn : 0 ≤ (max_time_length strftime t0 fmt (MTL_FILENAME ||| MTL_REGEXP) none 0).1) :
    ∃ re : List Char,
      max_time_length strftime t0 fmt (MTL_FILENAME ||| MTL_REGEXP) (some buf)
          ((max_time_length strftime t0 fmt (MTL_FILENAME ||| MTL_REGEXP) none 0).1 + 1) =
        ((max_time_length strftime t0 fmt (MTL_FILENAME ||| MTL_REGEXP) none 0).1, some re) ∧
      (re.length : Int) =
        (max_time_length strftime t0 fmt (MTL_FILENAME ||| MTL_REGEXP) none 0).1 ∧
      remove_old_files_format_rc strftime t0 sPathBase fmt = ERROR_NONE := by
  have fill : ∀ buf0 : List Char, ∃ re : List Char,
      max_time_length strftime t0 fmt (MTL_FILENAME ||| MTL_REGEXP) (some buf0)
          ((max_time_length strftime t0 fmt (MTL_FILENAME ||| MTL_REGEXP) none 0).1 + 1) =
        ((max_time_length strftime t0 fmt (MTL_FILENAME ||| MTL_REGEXP) none 0).1, some re) ∧
      (re.length : Int) =
        (max_time_length strftime t0 fmt (MTL_FILENAME ||| MTL_REGEXP) none 0).1 := by
    intro buf0
    unfold max_time_length at hn ⊢
    obtain ⟨b1, h1, h2, _⟩ := mtl_loop_fill strftime fmt.length fmt
      { t := t0, n := 0, sRE := none } { t := t0, n := 0, sRE := some buf0 } buf0
      (mtl_loop strftime (MTL_FILENAME ||| MTL_REGEXP) 0 fmt
        { t := t0, n := 0, sRE := none }).1
      (mtl_loop strftime (MTL_FILENAME ||| MTL_REGEXP) 0 fmt
        { t := t0, n := 0, sRE := none }).2
      0 ((mtl_loop strftime (MTL_FILENAME ||| MTL_REGEXP) 0 fmt
        { t := t0, n := 0, sRE := none }).1 + 1)
      (Nat.le_refl _) rfl rfl rfl (Int.le_refl _) (by simp) rfl hn (by omega)
    exact ⟨b1, h1, h2 hne⟩
  obtain ⟨re, h1, h2⟩ := fill buf
  refine ⟨re, h1, h2, ?_⟩
  obtain ⟨re0, g1, _⟩ := fill []
  unfold remove_old_files_format_rc aged_spec
  simp only [if_neg hne, if_neg (not_lt.mpr hn), g1]

/-- Witness of C26: the default format. -/
theorem C26_two_pass_sizing_witness :
    ∃ re : List Char,
      max_time_length (fun _ _ => 0) ⟨0, 0, 7, 15, 0, 127, 5, 14, 0⟩ DEFAULT_FORMAT
          (MTL_FILENAME ||| MTL_REGEXP) (some [])
          ((max_time_length (fun _ _ => 0) ⟨0, 0, 7, 15, 0, 127, 5, 14, 0⟩ DEFAULT_FORMAT
            (MTL_FILENAME ||| MTL_REGEXP) none 0).1 + 1) =
        ((max_time_length (fun _ _ => 0) ⟨0, 0, 7, 15, 0, 127, 5, 14, 0⟩ DEFAULT_FORMAT
          (MTL_FILENAME ||| MTL_REGEXP) none 0).1, some re) ∧
      (re.length : Int) =
        (max_time_length (fun _ _ => 0) ⟨0, 0, 7, 15, 0, 127, 5, 14, 0⟩ DEFAULT_FORMAT
          (MTL_FILENAME ||| MTL_REGEXP) none 0).1 ∧
      remove_old_files_format_rc (fun _ _ => 0) ⟨0, 0, 7, 15, 0, 127, 5, 14, 0⟩ "log".toList
        DEFAULT_FORMAT = ERROR_NONE :=
  C26_two_pass_sizing (fun _ _ => 0) ⟨0, 0, 7, 15, 0, 127, 5, 14, 0⟩ DEFAULT_FORMAT []
    "log".toList (by decide) (by decide)

end Datecycle
